import Mathlib

/-!
Verification of the rewordapp rewriting engine against its specification.

The definitions below are a shallow embedding of the Python sources:
`rewordapp/netparser.py`, `rewordapp/line.py`, `rewordapp/utils.py`,
`rewordapp/rewritten.py`, `rewordapp/rules.py` and
`rewordapp/parser/datetime.py`.  Randomness (`random.choice`,
`random.randint`, `random.shuffle`, `random.randrange`) is made explicit:
every randomized function takes the draws as parameters, and theorems
quantify over all draws (or over all tables reachable by the shuffles).
-/

namespace RewordApp

/-- Python `\s` restricted to the ASCII range (space, tab, newline,
carriage return, vertical tab, form feed).  The sources use `(?u)\s`,
which additionally matches rare Unicode spaces; all claims here are
about the ASCII behaviour. -/
def pyIsSpace (c : Char) : Bool :=
  c = ' ' || c = '\t' || c = '\n' || c = '\r' || c = '\x0b' || c = '\x0c'

/-- Value of one decimal digit character. -/
def decDigitVal (c : Char) : Nat := c.toNat - 48

/-- `int(s, 10)` on a string of decimal digits (`Octet.value` for IPv4). -/
def decVal (cs : List Char) : Nat := cs.foldl (fun a c => a * 10 + decDigitVal c) 0

/-- Value of one hexadecimal digit character. -/
def hexDigitVal (c : Char) : Nat :=
  if c.isDigit then c.toNat - 48
  else if 'a' ≤ c ∧ c ≤ 'f' then c.toNat - 87
  else if 'A' ≤ c ∧ c ≤ 'F' then c.toNat - 55
  else 0

/-- `int(s, 16)` on a string of hex digits (`Octet.value` for IPv6/MAC). -/
def hexVal (cs : List Char) : Nat := cs.foldl (fun a c => a * 16 + hexDigitVal c) 0

/-- Is `cs` a nonempty run of decimal digits? -/
def allDigits (cs : List Char) : Bool := cs ≠ [] && cs.all (·.isDigit)

/-- A canonical decimal rendering: digits, and no leading zero unless the
string is exactly "0".  `ipaddress.ip_address` rejects octets with leading
zeros, so every parsed IPv4 octet is canonical. -/
def canonDec (cs : List Char) : Bool :=
  allDigits cs && (cs.head? ≠ some '0' || cs = ['0'])

/-- `str.strip()` restricted to ASCII whitespace. -/
def pyStrip (s : String) : String :=
  String.mk (((s.toList.dropWhile pyIsSpace).reverse.dropWhile pyIsSpace).reverse)

/-- `str.lower()` restricted to ASCII (all inputs below are ASCII). -/
def strLower (s : String) : String := String.mk (s.toList.map Char.toLower)

/-! ## netparser.py -/

namespace Net

/-- One positional octet/segment of a network address
(`netparser.Octet`).  `value` is computed by the constructor from `data`
(`int(data, 10)` for ipv4, `int(data, 16)` otherwise, `0` when empty). -/
structure Octet where
  netType : String
  data : String
  position : Nat
  deriving Repr, DecidableEq

/-- `Octet.width`: rendered width of the octet. -/
def Octet.width (o : Octet) : Nat := o.data.length

/-- `Octet.value` as computed in `Octet.__init__` (`int(data, base)` when
`data` is nonempty, else `0`). -/
def Octet.value (o : Octet) : Nat :=
  if o.data.toList.isEmpty then 0
  else if o.netType = "ipv4" then decVal o.data.toList
  else hexVal o.data.toList

/-- The empty `Octet()` returned by `Octets.get_octet` on a bad index. -/
def Octet.empty : Octet := ⟨"", "", 0⟩

/-- `format(v, "x")` — lower-case hex rendering of a natural number. -/
def toHexString (v : Nat) : String := Nat.toDigits 16 v |> String.mk

/-- `format(v, "0Nx")` — zero-padded lower-case hex rendering. -/
def toHexStringPad (w v : Nat) : String :=
  let ds := Nat.toDigits 16 v
  String.mk (List.replicate (w - ds.length) '0' ++ ds)

/-- `find the band (start, stop) with start ≤ value < stop` — the loop in
`pick_new_octet_value`. -/
def findBand (start : Nat) (bounds : List Nat) (value : Nat) : Option (Nat × Nat) :=
  match bounds with
  | [] => none
  | stop :: rest =>
    if start ≤ value ∧ value < stop then some (start, stop)
    else findBand stop rest value

/-- `pick_new_octet_value(octet)` from netparser.py.  `r` is the draw made
by `random.choice(candidates)`, modelled as an index into the candidate
list (`candidates[r % len(candidates)]`). -/
def pick_new_octet_value (o : Octet) (r : Nat) : String :=
  let value := o.value
  if value = 0 then
    if o.netType = "mac" then (if o.width = 2 then "00" else "000") else "0"
  else
    let boundaries : List Nat :=
      if o.netType = "ipv4" then [10, 100, 256]
      else if o.netType = "ipv6" then [16, 256, 4096, 65536]
      else [16, 256, 4096]
    match findBand 0 boundaries value with
    | some (start, stop) =>
      let candidates := (List.range' start (stop - start)).filter (· ≠ value)
      let newValue := candidates.getD (r % candidates.length) 0
      if o.netType = "mac" then
        toHexStringPad (if o.width = 2 then 2 else 3) newValue
      else if o.netType = "ipv4" then toString newValue
      else toHexString newValue
    | none =>
      if o.netType = "ipv4" ∨ o.netType = "ipv6" then "0"
      else if o.width = 2 then "00" else "000"

/-- `Octet.generate_new()`: new octet with a value drawn by
`pick_new_octet_value`, same position and net type. -/
def Octet.generate_new (o : Octet) (r : Nat) : Octet :=
  { netType := o.netType, data := pick_new_octet_value o r, position := o.position }

/-- A separator character of `re.split(r"[.:-]", ...)` /
`re.search(r"[.:-]", ...)` in `Octets`. -/
def isSep (c : Char) : Bool := c = '.' || c = ':' || c = '-'

/-- Split a character list at every character satisfying `p`
(`re.split` with a single-character class, or `str.split(sep)`). -/
def splitByL (p : Char → Bool) : List Char → List (List Char)
  | [] => [[]]
  | c :: rest =>
    if p c then [] :: splitByL p rest
    else
      match splitByL p rest with
      | [] => [[c]]
      | q :: qs => (c :: q) :: qs

/-- `re.split(r"[.:-]", s)` on character lists. -/
def splitSepsL : List Char → List (List Char) := splitByL isSep

/-- `re.findall(r"\w\w", s)`: on the separator-free (all word characters)
addresses that reach this branch, the matches are the consecutive
disjoint character pairs. -/
def pairsOf : List Char → List (List Char)
  | a :: b :: rest => [a, b] :: pairsOf rest
  | _ => []

/-- `sep.join` on character lists. -/
def interL (sep : List Char) : List (List Char) → List Char
  | [] => []
  | [p] => p
  | p :: ps => p ++ sep ++ interL sep ps

/-- `sep.join(parts)`. -/
def joinSep (sep : List Char) (parts : List String) : String :=
  String.mk (interL sep (parts.map String.toList))

/-- `netparser.Octets`: a parsed address together with its positional
octets. -/
structure Octets where
  address : String
  netType : String
  octets : List Octet
  deriving Repr, DecidableEq

/-- `Octets.__init__` / `Octets._parse_address`: strip the address, split
it on `[.:-]` when a separator is present (else into `\w\w` pairs), and
build positional `Octet`s. -/
def mkOctets (address netType : String) : Octets :=
  { address := pyStrip address, netType := netType,
    octets := (if (pyStrip address).toList.any isSep then splitSepsL (pyStrip address).toList
               else pairsOf (pyStrip address).toList).enum.map
      (fun pv => ⟨netType, String.mk pv.2, pv.1⟩) }

/-- `Octets.get_octet`: octet at the index, or an empty octet. -/
def Octets.get (os : Octets) (index : Nat) : Octet := os.octets.getD index Octet.empty

/-- `Octets.first_nonzero_octet`. -/
def Octets.first_nonzero_octet (os : Octets) : Octet :=
  match os.octets.find? (fun o => decide (0 < o.value)) with
  | some o => o
  | none => os.get 0

/-- `Octets.total_nonzero_octet`. -/
def Octets.total_nonzero_octet (os : Octets) : Nat :=
  (os.octets.filter (fun o => decide (0 < o.value))).length

/-- `Octet.hex_value`. -/
def Octet.hex_value (o : Octet) : String :=
  if o.netType = "mac" then toHexStringPad (if o.width = 2 then 2 else 3) o.value
  else toHexStringPad (if o.netType = "ipv4" then 2 else 4) o.value

/-- `Octets.contains_octet`: does the octet at the same position have the
same value (`Octet.__eq__` compares values)? -/
def Octets.contains_octet (os : Octets) (o : Octet) : Bool :=
  (os.get o.position).value = o.value

/-- `Octets.sync_by_position`: replace the octet at `position` with a
clone of the source's octet at that position. -/
def Octets.sync_by_position (os source : Octets) (position : Nat) : Octets :=
  { os with octets := os.octets.set position (source.get position) }

/-- `Octets.generate_new(self)`: regenerate the octets (each position
using its own independent draw `rng position`), render the new address
and re-parse it.  The draw consumed by `random.choice` inside
`pick_new_octet_value` for the octet at position `p` is modelled as
`rng p`. -/
def Octets.generate_new (os : Octets) (rng : Nat → Nat) : Octets :=
  let new_octets : List Octet :=
    if os.netType = "mac" then
      let half := if os.octets.length = 4 then 2 else 3
      os.octets.take half ++ (os.octets.drop half).map (fun o => o.generate_new (rng o.position))
    else if os.total_nonzero_octet ≤ 1 then
      os.octets.map (fun o => o.generate_new (rng o.position))
    else
      let first_nonzero := os.first_nonzero_octet
      let pivot := if os.netType = "ipv6" then first_nonzero.position + 1 else 1
      os.octets.take pivot ++ (os.octets.drop pivot).map (fun o => o.generate_new (rng o.position))
  if os.netType = "ipv4" then
    mkOctets (joinSep ['.'] (new_octets.map (fun o => toString o.value))) "ipv4"
  else if os.netType = "ipv6" then
    mkOctets (joinSep [':'] (new_octets.map (fun o => o.hex_value))) "ipv6"
  else
    let joiner : List Char :=
      match os.address.toList.find? isSep with
      | some c => [c]
      | none => []
    mkOctets (joinSep joiner (new_octets.map (fun o => o.hex_value))) os.netType

/-- `Octets.to_address` on the ipv4 branch:
`ipaddress.ip_address(".".join(o.data)).compressed`.  The data strings of
parsed and regenerated IPv4 octets are canonical decimals (the regex
pipeline rejects leading zeros and `pick_new_octet_value` renders
`str(value)`), and on a canonical dotted quad `compressed` re-renders
each octet value in canonical decimal — modelled as rendering the
values.  (The ipv6 compression is not modelled; no theorem below uses
the ipv6 branch.) -/
def Octets.to_address (os : Octets) : String :=
  if os.netType = "ipv4" then
    joinSep ['.'] (os.octets.map (fun o => toString o.value))
  else if os.netType = "ipv6" then
    joinSep [':'] (os.octets.map (fun o => o.data))
  else os.address

/-- Parsed state of `IPv4Parser` (the fields of `NetworkParser.info`
that `generate_new` reads: `address`, `subnet`, `octets`; `value` is
derived). -/
structure IPv4State where
  address : String
  subnet : String
  octets : Octets
  deriving Repr, DecidableEq

/-- `info.value = int(ipaddress.ip_address(address))`: the base-256 value
of the four octets. -/
def IPv4State.value (st : IPv4State) : Nat :=
  st.octets.octets.foldl (fun a o => a * 256 + o.value) 0

/-- Subnet validation of `is_valid_network` for IPv4: one or two digits,
value between 1 and 32. -/
def subnetOk (s : String) : Bool :=
  allDigits s.toList && s.toList.length ≤ 2 && decide (1 ≤ decVal s.toList)
    && decide (decVal s.toList ≤ 32)

/-- An octet text accepted by `ipaddress.ip_address`: canonical decimal,
value at most 255 (leading zeros are rejected by `ip_address`). -/
def quadPartOk (cs : List Char) : Bool := canonDec cs && decide (decVal cs ≤ 255)

/-- Split a dotted-quad text and validate it as `ip_address` does. -/
def parseQuad (addr : String) : Option (List (List Char)) :=
  if (splitSepsL addr.toList).length = 4 ∧ (splitSepsL addr.toList).all quadPartOk
      ∧ addr.toList.all (fun c => c.isDigit || c = '.')
  then some (splitSepsL addr.toList) else none

/-- `IPv4Parser(text)` restricted to texts of the canonical shape
`a.b.c.d` or `a.b.c.d/n` — the shapes produced by `generate_new`
(`combined`) and stored in `info.address` by a successful parse.  On such
texts the regex of `NetworkParser._parse_ipv4` matches with empty prefix
and suffix, `is_valid_network` validates octet range and subnet length,
and `_apply_parsed_fields` stores the address and its `Octets`. -/
def ipv4FromString (text : String) : Option IPv4State :=
  match (splitByL (· = '/') text.toList).map String.mk with
  | [addr] =>
    match parseQuad addr with
    | some _ => some { address := addr, subnet := "", octets := mkOctets addr "ipv4" }
    | none => none
  | [addr, sub] =>
    match parseQuad addr with
    | some _ =>
      if subnetOk sub then
        some { address := addr, subnet := sub, octets := mkOctets addr "ipv4" }
      else none
    | none => none
  | _ => none

/-- Total wrapper of `ipv4FromString` (all uses below are on texts that
do parse). -/
def ipv4FromStringD (text : String) : IPv4State :=
  (ipv4FromString text).getD { address := "", subnet := "", octets := mkOctets "" "ipv4" }

/-- `IPv4Parser.is_valid_netmask`. -/
def is_valid_netmask (st : IPv4State) : Bool :=
  (List.range 32).any (fun bit => 2 ^ 32 - st.value = 2 ^ bit)

/-- `NetworkParser.sync_octets(self, other)`: for every position where the
values differ, replace self's octet by a clone of the other's.  Both
arguments here are IPv4 states, so the `type(self) == type(other)` guard
of the source holds. -/
def sync_octets (self other : IPv4State) : IPv4State :=
  if self.octets.octets.length = other.octets.octets.length then
    let synced := self.octets.octets.enum.map (fun io =>
      if io.2.value ≠ (other.octets.get io.1).value then other.octets.get io.1 else io.2)
    { self with octets := { self.octets with octets := synced } }
  else self

/-- An earlier parser handed to `generate_new(source_parsers=[...])`
together with the parser its own `generate_new` produced and stored in
`new_parser`.  In the rewrite pipeline a parser is only used as a source
after it has been generated, so `new_parser` is present. -/
structure IPv4Source where
  version : Nat
  st : IPv4State
  newParser : IPv4State
  deriving Repr, DecidableEq

/-- `IPv4Parser.generate_new(self, source_parsers)`.  The subnet joiner
is `/` (an IPv4 network never contains `%`). -/
def IPv4generate_new (self : IPv4State) (sources : List IPv4Source) (rng : Nat → Nat) :
    IPv4State :=
  if is_valid_netmask self then ipv4FromStringD self.address
  else
    let new_base := (self.octets.generate_new rng).to_address
    let combined := if self.subnet ≠ "" then new_base ++ "/" ++ self.subnet else new_base
    let newP := ipv4FromStringD combined
    let ipv4_sources := sources.filter (fun s => s.version = 4)
    if ipv4_sources.isEmpty then newP
    else
      match ipv4_sources.filter (fun s => s.st.value = self.value) with
      | identical :: _ => sync_octets newP identical.newParser
      | [] =>
        (List.range' 1 3).foldl (fun acc index =>
          let current := self.octets.get index
          match ipv4_sources.filter (fun s => s.st.octets.contains_octet current) with
          | m :: _ =>
            let syncedOctets := acc.octets.sync_by_position m.newParser.octets current.position
            { acc with octets := syncedOctets }
          | [] => acc) newP

/-- The numeric value `pick_new_octet_value` produces for an IPv4 octet
of value `v` under draw `r`. -/
def pickedValue (v r : Nat) : Nat :=
  if v = 0 then 0
  else
    match findBand 0 [10, 100, 256] v with
    | some (start, stop) =>
      let candidates := (List.range' start (stop - start)).filter (· ≠ v)
      candidates.getD (r % candidates.length) 0
    | none => 0

/-- The four octet values produced by one `Octets.generate_new` pass on a
parsed IPv4 quad: on the at-most-one-nonzero-octet branch all four
octets are re-drawn; otherwise the first is cloned and the rest are
re-drawn, each position with its own independent draw. -/
def genVals (st : IPv4State) (rng : Nat → Nat) : List Nat :=
  if st.octets.total_nonzero_octet ≤ 1 then
    [pickedValue (st.octets.get 0).value (rng 0), pickedValue (st.octets.get 1).value (rng 1),
     pickedValue (st.octets.get 2).value (rng 2), pickedValue (st.octets.get 3).value (rng 3)]
  else
    [(st.octets.get 0).value, pickedValue (st.octets.get 1).value (rng 1),
     pickedValue (st.octets.get 2).value (rng 2), pickedValue (st.octets.get 3).value (rng 3)]

/-! ### MACParser -/

/-- `[0-9a-f]` under `(?i)`: an ASCII hex digit of either case. -/
def isHexChar (c : Char) : Bool :=
  ('0' ≤ c && c ≤ '9') || ('a' ≤ c && c ≤ 'f') || ('A' ≤ c && c ≤ 'F')

/-- Match `[0-9a-f]{n}` as a prefix of the list; return run and rest. -/
def hexRun : Nat → List Char → Option (List Char × List Char)
  | 0, l => some ([], l)
  | _ + 1, [] => none
  | n + 1, c :: l =>
    if isHexChar c then
      match hexRun n l with
      | some (run, rest) => some (c :: run, rest)
      | none => none
    else none

/-- Match `(sep[0-9a-f]{n}){k}` as a prefix of the list. -/
def sepHexGroups (sep : Char) (n : Nat) : Nat → List Char → Option (List Char × List Char)
  | 0, l => some ([], l)
  | _ + 1, [] => none
  | k + 1, c :: l =>
    if c = sep then
      match hexRun n l with
      | some (run, rest) =>
        match sepHexGroups sep n k rest with
        | some (run2, rest2) => some (c :: run ++ run2, rest2)
        | none => none
      | none => none
    else none

/-- One alternative of the `address` group of `MACParser._parse_mac`:
`w` hex digits followed by `groups` repetitions of `sep` + `w` hex
digits. -/
def macAlt (sep : Char) (w groups : Nat) (l : List Char) : Option (List Char × List Char) :=
  match hexRun w l with
  | some (run, rest) =>
    match sepHexGroups sep w groups rest with
    | some (run2, rest2) => some (run ++ run2, rest2)
    | none => none
  | none => none

/-- The `address` group: the four alternatives tried left to right
(`hh(:hh){5} | hh(-hh){5} | hhh(.hhh){3} | [0-9a-f]{12}`).  At any one
start position at most one alternative matches (the character at offset
2, respectively 3, decides), so first-match order is faithful to the
regex engine. -/
def macAddressAlt (l : List Char) : Option (List Char × List Char) :=
  (macAlt ':' 2 5 l).orElse fun _ =>
    (macAlt '-' 2 5 l).orElse fun _ =>
      (macAlt '.' 3 3 l).orElse fun _ => hexRun 12 l

/-- `(?P<suffix>[^0-9a-f].*)?$`: after the address, either the string
ends or a non-hex character starts the suffix (which then runs to the
end of the string). -/
def macSuffixOk : List Char → Bool
  | [] => true
  | c :: _ => !isHexChar c

/-- The greedy search of `re.match` for
`(?P<prefix>.*[^0-9a-f])?(?P<address>...)(?P<suffix>...)?$`: the prefix
is as long as possible (its last character non-hex), shrinking on
failure, with the absent-prefix case tried last.  `k` is the prefix
length currently tried.  Line content never contains a newline, so the
newline exclusion of `.` is immaterial. -/
def macFindFrom (text : List Char) : Nat → Option (List Char × List Char × List Char)
  | 0 =>
    match macAddressAlt text with
    | some (addr, rest) => if macSuffixOk rest then some ([], addr, rest) else none
    | none => none
  | k + 1 =>
    let pre := text.take (k + 1)
    let post := text.drop (k + 1)
    if (pre.getLast?.map isHexChar).getD true = false then
      match macAddressAlt post with
      | some (addr, rest) =>
        if macSuffixOk rest then some (pre, addr, rest) else macFindFrom text k
      | none => macFindFrom text k
    else macFindFrom text k

/-- `re.match` of the `_parse_mac` pattern against the whole text. -/
def macMatch (text : List Char) : Option (List Char × List Char × List Char) :=
  macFindFrom text text.length

/-- The pure-numeric rejection in `_parse_mac`:
`re.sub(r"[0-9.]", "", address) == ""`. -/
def macPureNumeric (addr : List Char) : Bool := addr.all (fun c => c.isDigit || c = '.')

/-- `MACParser` state: `_text`, `_prefix` (`pfx`), `_suffix` (`sfx`),
`info.address`, `info.value` (`prefix`/`suffix` are reserved words in
Lean). -/
structure MACState where
  raw_text : String
  pfx : String
  sfx : String
  address : String
  value : Nat
  deriving Repr, DecidableEq

/-- `MACParser.__init__` → `_parse_mac` → `_apply_parsed_fields`:
`info.value` is `int(address with [.: -] removed, 16)`. -/
def mkMAC (text : String) : MACState :=
  match macMatch text.toList with
  | none => ⟨text, "", "", "", 0⟩
  | some (pre, addr, rest) =>
    if macPureNumeric addr then ⟨text, "", "", "", 0⟩
    else
      ⟨text, String.mk pre, String.mk rest, String.mk addr,
        hexVal (addr.filter (fun c => !(c = '.' || c = ':' || c = ' ' || c = '-')))⟩

/-- `MACParser.generate_new`.  `rewritten.new_mac_address` is the
randomized rewriter, passed as the oracle `newAddr`. -/
def MACgenerate_new (st : MACState) (newAddr : String → String) : MACState :=
  if st.address ≠ "" then
    if st.value = 0 ∨ st.value = hexVal (List.replicate 12 'f') then mkMAC st.raw_text
    else mkMAC (st.pfx ++ newAddr st.address ++ st.sfx)
  else mkMAC st.raw_text

end Net

/-! ## utils.py and line.py -/

/-- `utils.split_by_matches(text, r"(?u)\s+")` groups the text into
maximal runs of whitespace (the matches) and the gaps between them, in
order, dropping nothing and producing no empty segment: exactly the
maximal runs of characters with equal `pyIsSpace` value. -/
def splitByMatchesL : List Char → List (List Char)
  | [] => []
  | c :: cs =>
    match splitByMatchesL cs with
    | [] => [[c]]
    | [] :: rest => [c] :: [] :: rest
    | (d :: r) :: rest =>
      if pyIsSpace c = pyIsSpace d then (c :: d :: r) :: rest
      else [c] :: (d :: r) :: rest

/-- `utils.split_by_matches` on a string. -/
def split_by_matches (s : String) : List String := (splitByMatchesL s.toList).map String.mk

/-- `utils.extract_non_whitespace`: `re.findall(r"(?u)\S+", text)` — the
maximal non-whitespace runs, i.e. the runs of the alternating split that
consist of non-whitespace characters. -/
def extract_non_whitespace (s : String) : List String :=
  ((splitByMatchesL s.toList).filter (fun r => r.any (fun c => !pyIsSpace c))).map String.mk

/-- `Line.is_nonempty`: `re.sub(r"\s+", "", content)` is nonempty iff
some character of the content is not whitespace. -/
def is_nonempty (content : String) : Bool := content.toList.any (fun c => !pyIsSpace c)

/-- Matching the `subcontent` group of `utils.extract_segments` at the
head of `l`: the escaped parts joined by `\s+`.  Each `\s+` is greedy
with backtracking, so the runs of whitespace consumed between parts are
tried from longest to shortest. -/
def matchParts : List String → List Char → Option (List Char × List Char)
  | [], l => some ([], l)
  | [p], l =>
    if p.toList.isPrefixOf l then some (p.toList, l.drop p.toList.length) else none
  | p :: q :: ps, l =>
    if p.toList.isPrefixOf l then
      let l1 := l.drop p.toList.length
      let maxRun := (l1.takeWhile pyIsSpace).length
      ((List.range maxRun).map (fun i => maxRun - i)).findSome? (fun n =>
        match matchParts (q :: ps) (l1.drop n) with
        | some (m, rest) => some (p.toList ++ (l1.take n ++ m), rest)
        | none => none)
    else none
termination_by parts _ => parts.length

/-- The `re.search` of `utils.extract_segments`: `.*?` is lazy, so the
match is the leftmost one; `left` collects the skipped characters and
`.*` makes `right` the whole remainder. -/
def searchParts (parts : List String) : List Char → Option (List Char × List Char × List Char)
  | [] =>
    match matchParts parts [] with
    | some (m, rest) => some ([], m, rest)
    | none => none
  | c :: l =>
    match matchParts parts (c :: l) with
    | some (m, rest) => some ([], m, rest)
    | none =>
      match searchParts parts l with
      | some (left, m, rest) => some (c :: left, m, rest)
      | none => none

/-- `utils.extract_segments(line, parts)`: split the line into
`(left, subcontent, right)` around the parts, or `(line, "", "")` when
the search fails. -/
def extract_segments (line : String) (parts : List String) : String × String × String :=
  match searchParts parts line.toList with
  | some (left, m, rest) => (String.mk left, String.mk m, String.mk rest)
  | none => (line, "", "")

/-- The datetime machinery a `Line` consults, as oracles: `segs` is
`dt_rule.extract_segments` (a pure function of the non-whitespace
parts), `matched` is the truthiness of `build_datetime_token` on the
extracted span (`DateTimeToken._detect`, randomness-free). -/
structure DTOracle where
  segs : List String → List String
  matched : String → Bool

/-- `Line.tokenize`, at the level of the tokens' raw spans
(`BaseToken.raw` is always the chunk text the token was built from, for
every token class).  `dtRule` is `None` when the rules carry no
`rewrite_datetime`. -/
def tokenize (content : String) (dtRule : Option DTOracle) : List String :=
  if is_nonempty content = false then []
  else
    match dtRule with
    | some dt =>
      let parts := extract_non_whitespace content
      let segs := dt.segs parts
      let (left, dt_text, right) := extract_segments content segs
      if dt.matched dt_text then
        (if left ≠ "" then split_by_matches left else []) ++
          [dt_text] ++
          (if right ≠ "" then split_by_matches right else [])
      else split_by_matches content
    | none => split_by_matches content

/-- `Line.rewritten` for a line not marked unchanged (empty cache):
`""` when there are no tokens, otherwise the concatenation of the
tokens' rewritten texts.  `rw i s` is the rewritten text of the `i`-th
token, whose raw span is `s` (each token's rewrite is randomized, so it
is an oracle). -/
def line_rewritten (content : String) (dtRule : Option DTOracle) (rw : Nat → String → String) :
    String :=
  let toks := tokenize content dtRule
  if toks.isEmpty then "" else String.join (toks.mapIdx rw)

/-- `Line._content`: the raw line with trailing `\r`/`\n` stripped
(`text.rstrip("\r\n")`). -/
def lineContent (raw : String) : String :=
  String.mk (raw.toList.reverse.dropWhile (fun c => c = '\r' || c = '\n')).reverse

/-- `Line._newline`: the trailing terminator (`text[len(content):]`). -/
def lineNewline (raw : String) : String :=
  String.mk (raw.toList.drop (lineContent raw).toList.length)

/-! ## rewritten.py -/

/-- `[0-7]`. -/
def isOctDigit (c : Char) : Bool := '0' ≤ c && c ≤ '7'

/-- `format(value, f"0{w}b")` for `value < 2 ** w`: exactly `w` binary
digits, zero-padded.  (`generate_random_binary` draws
`random.randrange(2 ** width)`, so the value is always below `2 ** w`.) -/
def binPad : Nat → Nat → List Char
  | 0, _ => []
  | w + 1, v => binPad w (v / 2) ++ [if v % 2 = 1 then '1' else '0']

/-- `rewritten.apply_mapping(text, mapping)`.  The mapping dictionaries
are passed as `Char → Option Char` (`dict.get(ch, ch)` is
`(mapping ch).getD ch`); `octalM` is the global `CharMapping.octal`
table, `binDraw w` the draw of `random.randrange(2 ** w)` made by
`generate_random_binary`.  The three regex guards
(`(?i)0x[a-f0-9]+`, `(?i)0b[01]+`, `(?i)0o?[0-7]+`) are checked in
source order. -/
def apply_mapping (text : String) (mapping octalM : Char → Option Char)
    (binDraw : Nat → Nat) : String :=
  match text.toList with
  | '0' :: x :: rest =>
    if (x = 'x' || x = 'X') && rest ≠ [] && rest.all Net.isHexChar then
      String.mk ('0' :: x :: rest.map (fun c => (mapping c).getD c))
    else if (x = 'b' || x = 'B') && rest ≠ [] && rest.all (fun c => c = '0' || c = '1') then
      String.mk ('0' :: x :: binPad rest.length (binDraw rest.length % 2 ^ rest.length))
    else if (x = 'o' || x = 'O') && rest ≠ [] && rest.all isOctDigit then
      String.mk ('0' :: x :: rest.map (fun c => (octalM c).getD c))
    else if (x :: rest).all isOctDigit then
      String.mk ('0' :: (x :: rest).map (fun c => (octalM c).getD c))
    else String.mk (('0' :: x :: rest).map (fun c => (mapping c).getD c))
  | l => String.mk (l.map (fun c => (mapping c).getD c))

/-- `int("".join("0" if c == "-" else "1" for c in bits), 2)`. -/
def bitsVal (bits : List Char) : Nat :=
  bits.foldl (fun a c => a * 2 + (if c = '-' then 0 else 1)) 0

/-- `format(new_value, "03b")`. -/
def format03b (v : Nat) : List Char :=
  let ds := Nat.toDigits 2 v
  List.replicate (3 - ds.length) '0' ++ ds

/-- The special-character restoration loop of `new_fperm.remap`. -/
def remapSpecial (original : List Char) (parts : List Char) : List Char :=
  (List.range original.length).foldl (fun ps i =>
    let ch := original.getD i ' '
    if ch ∉ ['r', 'w', 'x', '-'] then ps.set i ch else ps) parts

/-- `new_fperm.remap(bits)`: map the octal permission value through
`CharMapping.file_permission` (`fp`), re-render as `rwx` bits, restore
special characters. -/
def remap (fp : String → Option String) (bits : List Char) : List Char :=
  let value := bitsVal bits
  let nvs := (fp (toString value)).getD (toString value)
  let new_value := decVal nvs.toList
  let parts := (format03b new_value).mapIdx
    (fun i b => if b = '0' then '-' else "rwx".toList.getD i ' ')
  remapSpecial bits parts

/-- `rewritten.new_fperm(perm)`.  `fp` is `CharMapping.file_permission`
(a shuffled permutation of the digits 0–7), `win` is
`CharMapping.win_file_mode`. -/
def new_fperm (perm : String) (fp : String → Option String)
    (win : Char → Option Char) : String :=
  let l := perm.toList
  if l.length ≥ 10 then
    if (l.drop 1).take 9 = List.replicate 9 '-' then perm
    else
      String.mk ([l.getD 0 ' '] ++ remap fp ((l.drop 1).take 3) ++
        remap fp ((l.drop 4).take 3) ++ remap fp ((l.drop 7).take 3) ++ l.drop 10)
  else String.mk (l.map (fun c => (win c).getD c))

/-- The cyclic successor table on the digits 0–7: a derangement, hence a
possible outcome of `build_char_map(string.digits[:8])` for
`CharMapping.file_permission`. -/
def fpCycle : String → Option String := fun s =>
  if s = "0" then some "1" else if s = "1" then some "2"
  else if s = "2" then some "3" else if s = "3" then some "4"
  else if s = "4" then some "5" else if s = "5" then some "6"
  else if s = "6" then some "7" else if s = "7" then some "0" else none

/-- Character classes as distinguished by the specification (lowercase,
uppercase, digit, whitespace, ASCII punctuation, other). -/
inductive CClass where
  | lower | upper | digit | space | punct | other
  deriving Repr, DecidableEq

/-- `string.punctuation`. -/
def isPunct (c : Char) : Bool :=
  (33 ≤ c.toNat && c.toNat ≤ 47) || (58 ≤ c.toNat && c.toNat ≤ 64) ||
    (91 ≤ c.toNat && c.toNat ≤ 96) || (123 ≤ c.toNat && c.toNat ≤ 126)

/-- The class of one character. -/
def charClass (c : Char) : CClass :=
  if 'a' ≤ c ∧ c ≤ 'z' then .lower
  else if 'A' ≤ c ∧ c ≤ 'Z' then .upper
  else if c.isDigit then .digit
  else if pyIsSpace c then .space
  else if isPunct c then .punct
  else .other

/-! ## rules.py -/

/-- YAML values as `yaml.safe_load` produces them.  A float carries its
zero-ness (for Python truthiness) and its `str()` rendering; `bool` is a
subtype of `int` in Python, so every `isinstance(..., int)` check below
also accepts `bool`. -/
inductive Yaml where
  | str (s : String)
  | int (n : Int)
  | bool (b : Bool)
  | float (isZero : Bool) (render : String)
  | list (items : List Yaml)
  | map (entries : List (String × Yaml))
  | null

/-- Python truthiness of a YAML value. -/
def yamlTruthy : Yaml → Bool
  | .str s => s ≠ ""
  | .int n => n ≠ 0
  | .bool b => b
  | .float z _ => !z
  | .list l => !l.isEmpty
  | .map m => !m.isEmpty
  | .null => false

/-- `str(value)`.  Containers render to bracketed text that never
matches the digit/flag/width patterns below, which is the only way the
rendering is consumed. -/
def yamlRender : Yaml → String
  | .str s => s
  | .int n => toString n
  | .bool b => if b then "True" else "False"
  | .float _ r => r
  | .list _ => "[...]"
  | .map _ => "\x7b...\x7d"
  | .null => "None"

/-- The typed configuration exceptions of `rewordapp.exceptions` raised
by `rules.py`, plus the untyped `IndexError` Python raises on
`unchanged_lines: []` (`self.raw[0]` on an empty list). -/
inductive RuleError where
  | invalidRulesFormat (msg : String)
  | dateTimeRuleError (msg : String)
  | unchangedLinesError (msg : String)
  | indexError
  deriving Repr, DecidableEq

/-- `load_rules` on the already-loaded YAML document: anything but a
mapping raises `InvalidRulesFormat`.  (The `repr` tail of the message is
elided.) -/
def load_rules (data : Yaml) : Except RuleError (List (String × Yaml)) :=
  match data with
  | .map entries => .ok entries
  | _ => .error (.invalidRulesFormat "Rules must be a dictionary")

/-- Parsed `DateTimeTokenRule` state: `_is_rewrite`, `_start_pos`,
`_width` (`none` is the Python string `"eol"`). -/
structure DTRule where
  is_rewrite : Bool
  start_pos : Int
  width : Option Nat
  deriving Repr, DecidableEq

/-- `(?i)(true|false|yes|no)` on an already lowered string. -/
def flagOk (s : String) : Bool := s = "true" || s = "false" || s = "yes" || s = "no"

/-- `(?i)[+-]?\d+`. -/
def signedDigits (l : List Char) : Bool :=
  match l with
  | '+' :: rest => allDigits rest
  | '-' :: rest => allDigits rest
  | _ => allDigits l

/-- `int(s)` for a string matching `[+-]?\d+`. -/
def signedVal (l : List Char) : Int :=
  match l with
  | '+' :: rest => (decVal rest : Int)
  | '-' :: rest => -(decVal rest : Int)
  | _ => (decVal l : Int)

/-- `(?i)(\d+|eol|none|null)` on an already lowered string. -/
def widthOk (s : String) : Bool :=
  allDigits s.toList || s = "eol" || s = "none" || s = "null"

/-- `DateTimeTokenRule._parse_list_type` for a list value. -/
def dtParseList (items0 : List Yaml) : Except RuleError DTRule :=
  if items0.length ≠ 2 ∧ items0.length ≠ 3 then
    .error (.dateTimeRuleError "rewrite_datetime must be [true|false|yes|no, index, width]")
  else
    let items1 := items0.map (fun it => strLower (pyStrip (yamlRender it)))
    let items := if items1.length = 2 then items1 ++ ["1"] else items1
    let flag := items.getD 0 ""
    let index_str := items.getD 1 ""
    let width_str := items.getD 2 ""
    if ¬flagOk flag then
      .error (.dateTimeRuleError "first element must be one of: true, false, yes, no")
    else if ¬signedDigits index_str.toList then
      .error (.dateTimeRuleError "second element must be a signed integer index")
    else if ¬widthOk width_str then
      .error (.dateTimeRuleError "third element must be a width value or 'eol' or 'none'")
    else
      .ok ⟨flag = "true" || flag = "yes", signedVal index_str.toList,
        if allDigits width_str.toList then some (decVal width_str.toList) else none⟩

/-- The `flag` alternation `yes|no|true|false` (first characters are
distinct, so at most one alternative applies). -/
def takeFlag (cs : List Char) : Option (String × List Char) :=
  if cs.take 3 = "yes".toList then some ("yes", cs.drop 3)
  else if cs.take 2 = "no".toList then some ("no", cs.drop 2)
  else if cs.take 4 = "true".toList then some ("true", cs.drop 4)
  else if cs.take 5 = "false".toList then some ("false", cs.drop 5)
  else none

/-- `\s*,\s*`. -/
def wsComma (cs : List Char) : Option (List Char) :=
  match cs.dropWhile pyIsSpace with
  | ',' :: r => some (r.dropWhile pyIsSpace)
  | _ => none

/-- `-?\d+` (greedy), returning `int(...)` and the rest. -/
def takeSigned (cs : List Char) : Option (Int × List Char) :=
  match cs with
  | '-' :: r =>
    let ds := r.takeWhile Char.isDigit
    if ds = [] then none else some (-(decVal ds : Int), r.drop ds.length)
  | _ =>
    let ds := cs.takeWhile Char.isDigit
    if ds = [] then none else some ((decVal ds : Int), cs.drop ds.length)

/-- `re.fullmatch` of the `_parse_string_type` pattern
`(?ix) flag \s*,\s* start (?: \s*,\s* width? )?` against the stripped,
lowered rule string (`(?i)` makes lowering first equivalent). -/
def dtStringMatch (cs : List Char) : Option DTRule :=
  match takeFlag cs with
  | none => none
  | some (flag, r0) =>
    match wsComma r0 with
    | none => none
    | some r1 =>
      match takeSigned r1 with
      | none => none
      | some (start, r2) =>
        let mk := fun (w : Option Nat) => some (⟨flag = "yes" || flag = "true", start, w⟩ : DTRule)
        if r2 = [] then mk (some 1)
        else
          match wsComma r2 with
          | none => none
          | some r3 =>
            if r3 = [] then mk (some 1)
            else if allDigits r3 then mk (some (decVal r3))
            else if r3 = "eol".toList ∨ r3 = "null".toList ∨ r3 = "none".toList then mk none
            else none

/-- `DateTimeTokenRule.__init__` → `_parse` (list type, then string
type): success or a typed `DateTimeRuleError`. -/
def mkDateTimeRule (v : Yaml) : Except RuleError DTRule :=
  match v with
  | .list items => dtParseList items
  | .str s =>
    match dtStringMatch (strLower (pyStrip s)).toList with
    | some r => .ok r
    | none =>
      .error (.dateTimeRuleError "rewrite_datetime must be 'flag, index, width'")
  | _ => .error (.dateTimeRuleError "rewrite_datetime must be 'flag, index, width'")

/-- `RewriteRules.get_datetime_token_rule`:
`value = self.get("rewrite_datetime") or ""`, then a rule when truthy,
else `None` — falsy values (absent key, `0`, `false`, `""`, `{}`, `[]`,
`null`) are silently skipped. -/
def get_datetime_token_rule (rules : List (String × Yaml)) :
    Except RuleError (Option DTRule) :=
  let value := (rules.lookup "rewrite_datetime").getD .null
  if yamlTruthy value then (mkDateTimeRule value).map some else .ok none

/-- `_to_index_or_pattern` results: an `int` or a `str` (never `None`). -/
inductive PairRule where
  | int (i : Int)
  | str (s : String)
  deriving Repr, DecidableEq

/-- `(?i)w\d+` on an already lowered string. -/
def wNum (l : List Char) : Bool :=
  match l with
  | 'w' :: rest => allDigits rest
  | _ => false

/-- `UnchangedLinesRule._to_index_or_pattern`.  `t2p` is
`utils.text_to_pattern`, which is absent from the sources and treated as
an oracle. -/
def to_index_or_pattern (t2p : String → String) (v : Yaml) : PairRule :=
  match v with
  | .null => .str "eof"
  | _ =>
    let text := pyStrip (yamlRender v)
    if signedDigits text.toList then .int (signedVal text.toList)
    else if strLower text = "none" ∨ strLower text = "null" ∨ strLower text = "eof" then
      (if strLower text = "eof" then .str text else .int 0)
    else if wNum (strLower text).toList then .str (strLower text)
    else .str (t2p text)

/-- `isinstance(x, (int, str))` — `bool` is an `int` in Python. -/
def isIntOrStr : Yaml → Bool
  | .int _ => true
  | .bool _ => true
  | .str _ => true
  | _ => false

/-- `UnchangedLinesRule._validate_ranges` (the expected-format message
is abbreviated). -/
def validate_ranges (raw : Yaml) : Except RuleError Unit :=
  let msg : RuleError :=
    .unchangedLinesError "Invalid value for unchanged_lines: expected [start, stop] pairs"
  match raw with
  | .list pairs =>
    if pairs.all (fun p => match p with | .list l => l.length = 2 | _ => false) then
      if pairs.all (fun p =>
          match p with
          | .list [a, b] => isIntOrStr a && (isIntOrStr b || (match b with
            | .null => true
            | _ => false))
          | _ => true) then .ok () else .error msg
    else
      match pairs with
      | [a, b] =>
        if isIntOrStr a && (isIntOrStr b || (match b with | .null => true | _ => false)) then
          .ok ()
        else .error msg
      | _ => .error msg
  | _ => .error msg

/-- Parsed `UnchangedLinesRule` state (`_indices`, `_slice_indices`,
the `TextMatcher` patterns, `_pairs`, `_is_parsed`). -/
structure UnchangedState where
  indices : List Int
  slice_indices : List (Int × Option Int)
  patterns : List String
  pairs : List (PairRule × PairRule)
  is_parsed : Bool
  deriving Repr, DecidableEq

/-- `-?\d+` (fullmatch — the comma-item pattern allows no `+` sign). -/
def signedNoPlus (l : List Char) : Bool :=
  match l with
  | '-' :: r => allDigits r
  | _ => allDigits l

/-- `text.split(",")` at character level. -/
def splitOnComma : List Char → List (List Char)
  | [] => [[]]
  | c :: cs =>
    let r := splitOnComma cs
    if c = ',' then [] :: r
    else
      match r with
      | [] => [[c]]
      | h :: t => (c :: h) :: t

/-- `re.split(r"\s*,\s*", text)`: split at commas, consuming the
whitespace around each comma (outer whitespace survives). -/
def commaSplitWS (s : String) : List String :=
  let frags := splitOnComma s.toList
  frags.mapIdx (fun i cs =>
    let cs1 := if 0 < i then cs.dropWhile pyIsSpace else cs
    let cs2 := if i < frags.length - 1 then (cs1.reverse.dropWhile pyIsSpace).reverse else cs1
    String.mk cs2)

/-- One iteration of the `_parse_string_ranges` item loop.  The slice
arms parse the stripped, lowered item; Python lowers but does not strip
before `split(":")`, which only differs for items with outer whitespace
(possible only at the two ends of the rule string, where a stray space
around a `:eof` slice would crash `int()` in the source). -/
def parseItem (st : UnchangedState) (item : String) : UnchangedState :=
  let stripped := pyStrip item
  if signedNoPlus stripped.toList then
    let value := signedVal stripped.toList
    { st with indices := st.indices ++ [if value ≤ 0 then value else value - 1] }
  else if strLower stripped = "eof" then
    { st with indices := st.indices ++ [-1] }
  else
    let sl := (strLower stripped).toList
    let a := sl.takeWhile (· ≠ ':')
    let b := (sl.dropWhile (· ≠ ':')).drop 1
    if (a = "null".toList || a = "none".toList || signedNoPlus a) &&
        sl.contains ':' && b ≠ [] &&
        (b = "eof".toList ||
          (match b with
           | 'w' :: wd => allDigits wd
           | '-' :: wd => allDigits wd
           | _ => allDigits b)) then
      let aVal : Int := if a = "null".toList ∨ a = "none".toList then 0 else signedVal a
      let start := if aVal ≤ 0 then aVal else aVal - 1
      if b = "eof".toList then
        { st with slice_indices := st.slice_indices ++ [(start, none)] }
      else
        match b with
        | 'w' :: wd =>
          let width := decVal wd
          if width = 0 then st
          else
            let stop := start + width
            if start < 0 ∧ 0 ≤ stop then
              { st with slice_indices := st.slice_indices ++ [(start, none)] }
            else if start < stop then
              { st with slice_indices := st.slice_indices ++ [(start, some stop)] }
            else st
        | _ =>
          let stop0 := signedVal b
          let stop := if 0 ≤ stop0 then stop0 else stop0 + 1
          if start < 0 ∧ stop = 0 then
            { st with slice_indices := st.slice_indices ++ [(start, none)] }
          else if start < stop then
            { st with slice_indices := st.slice_indices ++ [(start, some stop)] }
          else st
    else { st with patterns := st.patterns ++ [item] }

/-- `UnchangedLinesRule.__init__` → `_parse`: `_parse_list_ranges`
followed by `_parse_string_ranges`; typed errors propagate, and
`unchanged_lines: []` hits the `self.raw[0]` `IndexError`. -/
def mkUnchangedRule (t2p : String → String) (raw : Yaml) : Except RuleError UnchangedState :=
  match raw with
  | .str text =>
    let st := (commaSplitWS text).foldl parseItem ⟨[], [], [], [], false⟩
    .ok { st with
      is_parsed := st.indices ≠ [] ∨ st.slice_indices ≠ [] ∨ st.patterns ≠ [] }
  | .int n => .ok ⟨[if n ≤ 0 then n else n - 1], [], [], [], true⟩
  | .bool b =>
    let n : Int := if b then 1 else 0
    .ok ⟨[if n ≤ 0 then n else n - 1], [], [], [], true⟩
  | _ =>
    match validate_ranges raw with
    | .error e => .error e
    | .ok _ =>
      match raw with
      | .list [] => .error .indexError
      | .list (first :: rest) =>
        let pairList : List (Yaml × Yaml) :=
          match first with
          | .list _ => (first :: rest).filterMap (fun p =>
              match p with
              | .list [a, b] => some (a, b)
              | _ => none)
          | _ =>
            match first :: rest with
            | [a, b] => [(a, b)]
            | _ => []
        let norm := pairList.map (fun ab =>
          let sv := to_index_or_pattern t2p ab.1
          let sv2 := match sv with
            | .int i => if 0 < i then PairRule.int (i - 1) else PairRule.int i
            | r => r
          (sv2, to_index_or_pattern t2p ab.2))
        .ok ⟨[], [], [], norm, norm ≠ []⟩
      | _ => .error (.unchangedLinesError "unreachable: validate_ranges accepts only lists")

/-- `RewriteRules.get_unchanged_lines_rule`: a rule only for
`str`/`int`/`bool`/`list` values — any other type (`float`, mapping,
`null`, absent) is silently dropped. -/
def get_unchanged_lines_rule (t2p : String → String) (rules : List (String × Yaml)) :
    Except RuleError (Option UnchangedState) :=
  match (rules.lookup "unchanged_lines").getD .null with
  | .str s => (mkUnchangedRule t2p (.str s)).map some
  | .int n => (mkUnchangedRule t2p (.int n)).map some
  | .bool b => (mkUnchangedRule t2p (.bool b)).map some
  | .list l => (mkUnchangedRule t2p (.list l)).map some
  | _ => .ok none

/-- `match_rule` inside `_apply_pair_rules` (`psearch pat text` is
`bool(re.search(pat, text))`; a pair rule is never `None`). -/
def match_rule (total : Nat) (psearch : String → String → Bool) (idx : Nat)
    (rule : PairRule) (text : String) : Bool :=
  match rule with
  | .str s => psearch s text
  | .int i =>
    let resolved := if 0 ≤ i then i else (total : Int) + i
    decide (max resolved 0 = (idx : Int))

/-- Membership of index `i` in `lines[slice(start, stop)]`. -/
def sliceMark (total : Nat) (sl : Int × Option Int) (i : Nat) : Bool :=
  let rs : Nat := if sl.1 < 0 then ((total : Int) + sl.1).toNat else min sl.1.toNat total
  match sl.2 with
  | none => decide (rs ≤ i ∧ i < total)
  | some e =>
    let re : Nat := if e < 0 then ((total : Int) + e).toNat else min e.toNat total
    decide (rs ≤ i ∧ i < re)

/-- `UnchangedLinesRule._apply_index_rules` over `(raw, unchanged)`
pairs. -/
def applyIndexRules (st : UnchangedState) (psearch : String → String → Bool)
    (total : Nat) (lines : List (String × Bool)) : List (String × Bool) :=
  let afterSlices := lines.mapIdx (fun i p =>
    (p.1, p.2 || st.slice_indices.any (fun sl => sliceMark total sl i)))
  if st.indices ≠ [] ∨ st.patterns ≠ [] then
    let resolved := st.indices.map (fun j => if 0 ≤ j then j else (total : Int) + j)
    afterSlices.mapIdx (fun i p =>
      if p.2 then p
      else if resolved.contains (i : Int) then (p.1, true)
      else if st.patterns.any (fun pat => psearch pat p.1) then (p.1, true)
      else p)
  else afterSlices

/-- `isinstance(start_rule, int) and start_rule == stop_rule` (an `int`
never equals a `str` in Python). -/
def startStopIntEq : PairRule → PairRule → Bool
  | .int a, .int b => a = b
  | _, _ => false

/-- `(?i)w\d+` against a (possibly mixed-case) stop rule string. -/
def wNumStr (s : String) : Option Nat :=
  match (strLower s).toList with
  | 'w' :: rest => if allDigits rest then some (decVal rest) else none
  | _ => none

/-- The `for idx, line in enumerate(lines)` loop of
`_apply_pair_rules`, with `in_range`, the mutable `stop_rule`, and
`break` made explicit (a `break` returns the remaining lines
untouched). -/
def pairLoop (total : Nat) (psearch : String → String → Bool) (start_rule : PairRule) :
    Nat → Bool → PairRule → List (String × Bool) → List (String × Bool)
  | _, _, _, [] => []
  | idx, in_range, stop_rule, (raw, fl) :: rest =>
    let fl1 := if in_range then true else fl
    if in_range && match_rule total psearch idx stop_rule raw then
      (raw, true) :: rest
    else
      if match_rule total psearch idx start_rule raw then
        if startStopIntEq start_rule stop_rule then (raw, true) :: rest
        else
          match stop_rule with
          | .str s =>
            match wNumStr s with
            | some width =>
              if width = 0 then (raw, false) :: rest
              else if width = 1 then (raw, true) :: rest
              else (raw, true) :: pairLoop total psearch start_rule (idx + 1) true
                (.int ((idx : Int) + width - 1)) rest
            | none => (raw, true) :: pairLoop total psearch start_rule (idx + 1) true
                stop_rule rest
          | _ => (raw, true) :: pairLoop total psearch start_rule (idx + 1) true stop_rule rest
      else (raw, fl1) :: pairLoop total psearch start_rule (idx + 1) in_range stop_rule rest

/-- One `for start_rule, stop_rule in self._pairs` iteration, with the
numeric-pair normalization. -/
def applyPair (total : Nat) (psearch : String → String → Bool)
    (lines : List (String × Bool)) (pr : PairRule × PairRule) : List (String × Bool) :=
  match pr with
  | (.int a, .int b) =>
    if b < a then lines
    else pairLoop total psearch (.int (if 0 < a then a - 1 else a)) 0 false
      (.int (if 0 < b then b - 1 else b)) lines
  | (s, t) => pairLoop total psearch s 0 false t lines

/-- `UnchangedLinesRule.apply_unchanged_lines`. -/
def apply_unchanged_lines (st : UnchangedState) (psearch : String → String → Bool)
    (lines : List (String × Bool)) : List (String × Bool) :=
  let total := lines.length
  if total = 0 then lines
  else if st.indices ≠ [] ∨ st.slice_indices ≠ [] ∨ st.patterns ≠ [] then
    applyIndexRules st psearch total lines
  else if st.pairs ≠ [] then st.pairs.foldl (applyPair total psearch) lines
  else lines

/-- The marking the builder performs before assembling output
(`unchanged_rule.apply_unchanged_lines(self._lines)` when the rule is
truthy). -/
def markedLines (rawLines : List String) (rule : Option UnchangedState)
    (psearch : String → String → Bool) : List (String × Bool) :=
  let withFlags := rawLines.map (fun r => (r, false))
  match rule with
  | some st => if st.is_parsed then apply_unchanged_lines st psearch withFlags else withFlags
  | none => withFlags

/-- The per-line output parts of `RewordBuilder.rewritten`:
`line.rewritten + line.newline`, where a line marked unchanged returns
its content verbatim. -/
def builderParts (linesFlags : List (String × Bool)) (dtRule : Option DTOracle)
    (rw : Nat → Nat → String → String) : List String :=
  linesFlags.mapIdx (fun i p =>
    (if p.2 then lineContent p.1 else line_rewritten (lineContent p.1) dtRule (rw i)) ++
      lineNewline p.1)

/-- `RewordBuilder.rewritten`. -/
def builder_rewritten (rawLines : List String) (rule : Option UnchangedState)
    (psearch : String → String → Bool) (dtRule : Option DTOracle)
    (rw : Nat → Nat → String → String) : String :=
  if rawLines.length = 0 then ""
  else String.join (builderParts (markedLines rawLines rule psearch) dtRule rw)

/-! ## parser/datetime.py

Python `datetime` values are modelled chronologically: a date is a day
ordinal (days since 1970-01-01, Euclidean-division civil-calendar
conversion), a datetime an ordinal plus time-of-day fields.  Python
compares datetimes chronologically, `timedelta(days=k)` subtracts from
the ordinal, and `.month`/`.day` are read back through the calendar
conversion.  `randint(a, b)` draws are explicit parameters
(`a + r % (b - a + 1)`). -/

/-- Day ordinal of a civil date, 0 = 1970-01-01. -/
def days_from_civil (y : Int) (m d : Nat) : Int :=
  let y2 : Int := y - (if m ≤ 2 then 1 else 0)
  let era : Int := y2 / 400
  let yoe : Int := y2 - era * 400
  let mp : Int := if 2 < m then (m : Int) - 3 else (m : Int) + 9
  let doy : Int := (153 * mp + 2) / 5 + d - 1
  let doe : Int := yoe * 365 + yoe / 4 - yoe / 100 + doy
  era * 146097 + doe - 719468

/-- Civil date `(year, month, day)` of a day ordinal. -/
def civil_from_days (z0 : Int) : Int × Nat × Nat :=
  let z := z0 + 719468
  let era : Int := z / 146097
  let doe : Int := z - era * 146097
  let yoe : Int := (doe - doe / 1460 + doe / 36524 - doe / 146096) / 365
  let y : Int := yoe + era * 400
  let doy : Int := doe - (365 * yoe + yoe / 4 - yoe / 100)
  let mp : Int := (5 * doy + 2) / 153
  let d : Int := doy - (153 * mp + 2) / 5 + 1
  let m : Int := mp + (if mp < 10 then 3 else -9)
  (y + (if m ≤ 2 then 1 else 0), m.toNat, d.toNat)

/-- A parsed `datetime` by fields (what `strptime` yields). -/
structure PyDateTime where
  year : Int
  month : Nat
  day : Nat
  hour : Nat
  minute : Nat
  second : Nat
  microsecond : Nat
  deriving Repr, DecidableEq

/-- A `datetime` in chronological form: day ordinal plus time of day. -/
structure DTState where
  ordinal : Int
  hour : Nat
  minute : Nat
  second : Nat
  microsecond : Nat
  deriving Repr, DecidableEq

def toState (t : PyDateTime) : DTState :=
  ⟨days_from_civil t.year t.month t.day, t.hour, t.minute, t.second, t.microsecond⟩

/-- `candidate.month` in chronological form. -/
def stateMonth (s : DTState) : Nat := (civil_from_days s.ordinal).2.1

/-- `candidate.day` in chronological form. -/
def stateDay (s : DTState) : Nat := (civil_from_days s.ordinal).2.2

/-- Total microseconds; Python datetime comparison is chronological. -/
def dtTimestamp (s : DTState) : Int :=
  s.ordinal * 86400000000 +
    (((s.hour * 3600 + s.minute * 60 + s.second) * 1000000 + s.microsecond : Nat) : Int)

/-- `random.randint(a, b)` (both ends inclusive) at draw `r`. -/
def randint (a b r : Nat) : Nat := a + r % (b - a + 1)

/-- `random_day(base)`. -/
def random_day (base r : Nat) : Nat :=
  if base < 10 then randint 1 9 r else randint 10 28 r

/-- `random_month(base)`. -/
def random_month (base r : Nat) : Nat :=
  if base < 10 then randint 1 9 r else randint 10 12 r

/-- `random_hour(base)`. -/
def random_hour (base r : Nat) : Nat :=
  if base < 10 then randint 0 9 r
  else if base < 13 then randint 10 12 r
  else randint 10 23 r

/-- `random_minute_or_second(base)`. -/
def random_minute_or_second (base r : Nat) : Nat :=
  if base < 10 then randint 1 9 r else randint 1 59 r

/-- `len(str(n))`. -/
def strLen (n : Nat) : Nat := (toString n).length

/-- The draws `_generate_random_datetime` makes, in call order. -/
structure DTDraws where
  rMonth : Nat
  rDay : Nat
  rHour : Nat
  rMin : Nat
  rSec : Nat
  rMicro : Nat
  rHour2 : Nat
  rMin2 : Nat
  rSec2 : Nat
  rDayDelta : Nat
  deriving Repr, DecidableEq

/-- The `for _ in range(360)` backward walk: subtract one day, return as
soon as the month/day digit widths match the base's. -/
def walkBack (wm wd : Nat) : Nat → DTState → DTState
  | 0, c => c
  | n + 1, c =>
    let c2 : DTState := { c with ordinal := c.ordinal - 1 }
    if strLen (stateMonth c2) = wm ∧ strLen (stateDay c2) = wd then c2
    else walkBack wm wd n c2

/-- `BaseDTParser._generate_random_datetime`.  (The Python version can
raise `OverflowError` when the walk crosses `datetime.min`, i.e. year 1;
the timeline here is unbounded.) -/
def generate_random_datetime (base : PyDateTime) (d : DTDraws) : DTState :=
  let baseS := toState base
  let candidate : DTState := toState
    ⟨base.year, random_month base.month d.rMonth, random_day base.day d.rDay,
      random_hour base.hour d.rHour, random_minute_or_second base.minute d.rMin,
      random_minute_or_second base.second d.rSec, randint 0 999999 d.rMicro⟩
  if dtTimestamp candidate < dtTimestamp baseS then candidate
  else
    let c2 : DTState :=
      ⟨baseS.ordinal - (randint 1 20 d.rDayDelta : Nat),
        random_hour base.hour d.rHour2,
        random_minute_or_second base.minute d.rMin2,
        random_minute_or_second base.second d.rSec2,
        candidate.microsecond⟩
    walkBack (strLen base.month) (strLen base.day) 360 c2

/-- `re.search("(?i) GMT$", fmt)`: the format ends with `" GMT"`,
case-insensitively. -/
def endsWithGMTCI (fmt : String) : Bool :=
  let l := (strLower fmt).toList
  decide (4 ≤ l.length) && decide (l.drop (l.length - 4) = " gmt".toList)

/-- Branch 1 of `try_parse_with`'s output-format derivation: a literal
`GMT` tail keeps the parse format as the output format.  (The branch is
tested first, so later branches are irrelevant when it applies.) -/
def gmtOutputFormat (fmt : String) : Option String :=
  if endsWithGMTCI fmt then some fmt else none

/-- `datetime`-module month lengths. -/
def daysInMonth (y : Int) (m : Nat) : Nat :=
  if m = 2 then
    if y.emod 4 = 0 ∧ (y.emod 100 ≠ 0 ∨ y.emod 400 = 0) then 29 else 28
  else if m = 4 ∨ m = 6 ∨ m = 9 ∨ m = 11 then 30
  else 31

/-- `\s+` as demanded for whitespace in a `strptime` format. -/
def ws1 (l : List Char) : Option (List Char) :=
  let ws := l.takeWhile pyIsSpace
  if ws.isEmpty then none else some (l.drop ws.length)

/-- Up to `k` leading digits and their value. -/
def takeDigitsUpTo (k : Nat) (l : List Char) : List Char × List Char :=
  let ds := (l.takeWhile Char.isDigit).take k
  (ds, l.drop ds.length)

/-- `datetime.strptime(text, "%a, %d %b %Y %H:%M:%S GMT")` (RFC 1123).
Day names match case-insensitively and are not validated against the
date; two-digit fields accept one digit; `%Y` is exactly four digits;
the constructed datetime validates ranges (`daysInMonth`). -/
def parseRFC1123 (text : String) : Option PyDateTime :=
  let l := text.toList
  match ["mon", "tue", "wed", "thu", "fri", "sat", "sun"].findSome? (fun w =>
    if (l.take 3).map Char.toLower = w.toList ∧ 3 ≤ l.length then some (l.drop 3) else none) with
  | none => none
  | some r1 =>
    match r1 with
    | ',' :: r2 =>
      match ws1 r2 with
      | none => none
      | some r3 =>
        let (dds, r4) := takeDigitsUpTo 2 r3
        if dds.isEmpty then none
        else
          let day := decVal dds
          match ws1 r4 with
          | none => none
          | some r5 =>
            match ["jan", "feb", "mar", "apr", "may", "jun", "jul", "aug", "sep",
                "oct", "nov", "dec"].enum.findSome? (fun wi =>
              if (r5.take 3).map Char.toLower = wi.2.toList ∧ 3 ≤ r5.length then
                some (wi.1 + 1, r5.drop 3) else none) with
            | none => none
            | some (month, r6) =>
              match ws1 r6 with
              | none => none
              | some r7 =>
                let (yds, r8) := takeDigitsUpTo 4 r7
                if yds.length ≠ 4 then none
                else
                  let year : Int := (decVal yds : Int)
                  match ws1 r8 with
                  | none => none
                  | some r9 =>
                    let (hds, r10) := takeDigitsUpTo 2 r9
                    if hds.isEmpty then none
                    else
                      match r10 with
                      | ':' :: r11 =>
                        let (mds, r12) := takeDigitsUpTo 2 r11
                        if mds.isEmpty then none
                        else
                          match r12 with
                          | ':' :: r13 =>
                            let (sds, r14) := takeDigitsUpTo 2 r13
                            if sds.isEmpty then none
                            else
                              match ws1 r14 with
                              | none => none
                              | some r15 =>
                                if r15 = ['G', 'M', 'T'] ∧
                                    1 ≤ day ∧ day ≤ daysInMonth year month ∧
                                    1 ≤ year ∧
                                    decVal hds ≤ 23 ∧ decVal mds ≤ 59 ∧
                                    decVal sds ≤ 59 then
                                  some ⟨year, month, day, decVal hds, decVal mds,
                                    decVal sds, 0⟩
                                else none
                          | _ => none
                      | _ => none
    | _ => none

/-- Two-digit zero padding (`%d`, `%H`, `%M`, `%S`). -/
def pad2 (n : Nat) : String := if n < 10 then "0" ++ toString n else toString n

/-- `%Y` (four-digit zero padding; negative years do not occur here). -/
def pad4 (y : Int) : String :=
  let ds := toString y.toNat
  String.mk (List.replicate (4 - ds.length) '0' ++ ds.toList)

/-- `randomized.strftime("%a, %d %b %Y %H:%M:%S GMT")`;
ordinal 0 (1970-01-01) is a Thursday. -/
def strftimeRFC1123 (s : DTState) : String :=
  let ymd := civil_from_days s.ordinal
  let wd := ((s.ordinal + 3).emod 7).toNat
  (["Mon", "Tue", "Wed", "Thu", "Fri", "Sat", "Sun"].getD wd "") ++ ", " ++
    pad2 ymd.2.2 ++ " " ++
    (["Jan", "Feb", "Mar", "Apr", "May", "Jun", "Jul", "Aug", "Sep", "Oct", "Nov",
      "Dec"].getD (ymd.2.1 - 1) "") ++ " " ++
    pad4 ymd.1 ++ " " ++ pad2 s.hour ++ ":" ++ pad2 s.minute ++ ":" ++ pad2 s.second ++ " GMT"

/-- `re.finditer`-style alternating split for an arbitrary
match-at-position function (`m l` is the length of the leftmost match
starting at `l`, if any); the fuel always carries the list length. -/
def splitGo (m : List Char → Option Nat) : Nat → List Char → List Char → List (List Char)
  | _, pending, [] => if pending.isEmpty then [] else [pending.reverse]
  | 0, pending, l => if (pending.reverse ++ l).isEmpty then [] else [pending.reverse ++ l]
  | fuel + 1, pending, c :: rest =>
    match m (c :: rest) with
    | some n =>
      if n = 0 then splitGo m fuel (c :: pending) rest
      else
        (if pending.isEmpty then [] else [pending.reverse]) ++
          (c :: rest).take n :: splitGo m fuel [] ((c :: rest).drop n)
    | none => splitGo m fuel (c :: pending) rest

/-- `utils.split_by_matches(text, pattern)` for a custom pattern. -/
def splitByMatcher (m : List Char → Option Nat) (l : List Char) : List (List Char) :=
  splitGo m l.length [] l

/-- Leftmost match of `[bcdeghilnprtuvy]\s+\d+(?:\s+\d{4})?` at the head
of the list (the optional group needs a whitespace run and four more
digits). -/
def matchP1 (l : List Char) : Option Nat :=
  match l with
  | c :: rest =>
    if c ∈ "bcdeghilnprtuvy".toList then
      let ws := rest.takeWhile pyIsSpace
      if ws.isEmpty then none
      else
        let r1 := rest.drop ws.length
        let ds := r1.takeWhile Char.isDigit
        if ds.isEmpty then none
        else
          let r2 := r1.drop ds.length
          let ws2 := r2.takeWhile pyIsSpace
          let ds2 := (r2.drop ws2.length).takeWhile Char.isDigit
          if ¬ws2.isEmpty ∧ 4 ≤ ds2.length then
            some (1 + ws.length + ds.length + ws2.length + 4)
          else some (1 + ws.length + ds.length)
    else none
  | [] => none

/-- `f"{v:>{width}}"`: right-aligned with spaces. -/
def intPad (width : Nat) (v : Nat) : List Char :=
  let ds := (toString v).toList
  List.replicate (width - ds.length) ' ' ++ ds

/-- `BaseDTParser._match_prefixed_number_widths`.  (When the two item
lists of a matched segment differ in length the source raises
`IndexError`; extra formatted items are kept here.) -/
def matchPrefixedNumberWidths (raw formatted : String) : String :=
  let raw_parts := splitByMatcher matchP1 raw.toList
  let fmt_parts := splitByMatcher matchP1 formatted.toList
  if raw_parts.length ≠ fmt_parts.length then formatted
  else
    let fmt2 := (raw_parts.zip fmt_parts).map (fun rp =>
      if (matchP1 rp.1).isSome ∧ (matchP1 rp.2).isSome then
        let raw_items := splitByMatchesL rp.1
        let fmt_items := splitByMatchesL rp.2
        (fmt_items.mapIdx (fun i fi =>
          if i < raw_items.length then
            let ri := raw_items.getD i []
            if allDigits ri ∧ allDigits fi then intPad ri.length (decVal fi)
            else if fi.any (fun c => !pyIsSpace c) then fi
            else ri
          else fi)).join
      else rp.2)
    String.mk fmt2.join

/-- `[/.:-]` as a one-character match. -/
def matchSepChar (l : List Char) : Option Nat :=
  match l with
  | c :: _ => if c = '/' ∨ c = '.' ∨ c = ':' ∨ c = '-' then some 1 else none
  | [] => none

def isSepCh (c : Char) : Bool := c = '/' || c = '.' || c = '-'

def digitRun (l : List Char) : Nat := (l.takeWhile Char.isDigit).length

/-- `re.match` of the date/time component pattern
`((\d{1,2}[/.-]){2}\d{2,4})|(\d{2,4}([/.-]\d{1,2}){2})|(\d{1,2}:\d{1,2}(:\d{1,2})?)`
at the head of the list (backtracking forces the pre-separator digit
runs to be exact). -/
def matchP2 (l : List Char) : Bool :=
  let r1 := digitRun l
  let altA :=
    decide (1 ≤ r1 ∧ r1 ≤ 2) &&
      (match l.drop r1 with
       | c1 :: l2 =>
         isSepCh c1 &&
           (let r2 := digitRun l2
            decide (1 ≤ r2 ∧ r2 ≤ 2) &&
              (match l2.drop r2 with
               | c2 :: l3 => isSepCh c2 && decide (2 ≤ digitRun l3)
               | [] => false))
       | [] => false)
  let altB :=
    decide (2 ≤ r1 ∧ r1 ≤ 4) &&
      (match l.drop r1 with
       | c1 :: l2 =>
         isSepCh c1 &&
           (let r2 := digitRun l2
            decide (1 ≤ r2 ∧ r2 ≤ 2) &&
              (match l2.drop r2 with
               | c2 :: l3 => isSepCh c2 && decide (1 ≤ digitRun l3)
               | [] => false))
       | [] => false)
  let altC :=
    decide (1 ≤ r1 ∧ r1 ≤ 2) &&
      (match l.drop r1 with
       | ':' :: l2 => decide (1 ≤ digitRun l2)
       | _ => false)
  altA || altB || altC

/-- `BaseDTParser._match_datetime_component_widths`. -/
def matchDatetimeComponentWidths (raw formatted : String) : String :=
  let raw_parts := splitByMatchesL raw.toList
  let fmt_parts := splitByMatchesL formatted.toList
  if raw_parts.length ≠ fmt_parts.length then formatted
  else
    let final := (List.range raw_parts.length).foldl (fun fp idx =>
      let rseg := raw_parts.getD idx []
      let fseg := fp.getD idx []
      if matchP2 rseg ∧ matchP2 fseg then
        let raw_groups := splitByMatcher matchSepChar rseg
        let fmt_groups := splitByMatcher matchSepChar fseg
        let newGroups := fmt_groups.mapIdx (fun g fi =>
          if g < raw_groups.length then
            let ri := raw_groups.getD g []
            if allDigits ri ∧ allDigits fi ∧ ri.length < fi.length then
              let trimmed := (toString (decVal fi)).toList
              if trimmed.length = ri.length then trimmed else trimmed.take ri.length
            else fi
          else fi)
        let new_fmt_seg := newGroups.join
        if new_fmt_seg.length = rseg.length then
          let fp2 := fp.set idx new_fmt_seg
          if 0 < idx then fp2.set (idx - 1) (raw_parts.getD (idx - 1) []) else fp2
        else fp
      else fp) fmt_parts
    String.mk final.join

/-- `BaseDTParser.rewritten` for an RFC 1123 parse: render the
randomized datetime under the derived format, then the two width
reconciliation passes against the raw text. -/
def rewrittenRFC1123 (raw : String) (base : PyDateTime) (d : DTDraws) : String :=
  let s := generate_random_datetime base d
  let formatted := strftimeRFC1123 s
  matchDatetimeComponentWidths raw (matchPrefixedNumberWidths raw formatted)

end RewordApp

namespace RewordApp

lemma toList_mk (l : List Char) : (String.mk l).toList = l := rfl

lemma mkMAC_raw_text (text : String) : (Net.mkMAC text).raw_text = text := by
  unfold Net.mkMAC
  cases Net.macMatch text.toList with
  | none => rfl
  | some t =>
    obtain ⟨pre, addr, rest⟩ := t
    by_cases h : Net.macPureNumeric addr = true
    · simp [h]
    · simp [h]

lemma mk_toList (s : String) : String.mk s.toList = s := rfl

lemma dropWhile_eq_self {p : Char → Bool} :
    ∀ l : List Char, (∀ c ∈ l, p c = false) → l.dropWhile p = l := by
  intro l h
  induction l with
  | nil => rfl
  | cons c rest _ =>
    simp only [List.dropWhile_cons]
    rw [h c (by simp)]
    simp

lemma pyStrip_eq_self (s : String) (h : ∀ c ∈ s.toList, pyIsSpace c = false) :
    pyStrip s = s := by
  unfold pyStrip
  rw [dropWhile_eq_self _ h, dropWhile_eq_self, List.reverse_reverse, mk_toList]
  intro c hc
  exact h c (by simpa using hc)

lemma digit_not_space {c : Char} (h : c.isDigit = true) : pyIsSpace c = false := by
  cases hsp : pyIsSpace c with
  | false => rfl
  | true =>
    exfalso
    simp only [pyIsSpace, Bool.or_eq_true, decide_eq_true_eq] at hsp
    rcases hsp with ((((rfl | rfl) | rfl) | rfl) | rfl) | rfl <;> revert h <;> decide

namespace Net

lemma digit_not_sep {c : Char} (h : c.isDigit = true) : isSep c = false := by
  cases hsp : isSep c with
  | false => rfl
  | true =>
    exfalso
    simp only [isSep, Bool.or_eq_true, decide_eq_true_eq] at hsp
    rcases hsp with (rfl | rfl) | rfl <;> revert h <;> decide

lemma digit_ne_slash {c : Char} (h : c.isDigit = true) : ¬(c = '/') := by
  rintro rfl
  revert h; decide

lemma splitByL_not_mem {p : Char → Bool} :
    ∀ l : List Char, (∀ c ∈ l, p c = false) → splitByL p l = [l] := by
  intro l h
  induction l with
  | nil => rfl
  | cons c rest ih =>
    have hc := h c (by simp)
    have hrest := ih (fun d hd => h d (by simp [hd]))
    simp [splitByL, hc, hrest]

lemma splitByL_append {p : Char → Bool} (a : List Char) (ha : ∀ c ∈ a, p c = false)
    (c : Char) (hc : p c = true) (l : List Char) :
    splitByL p (a ++ c :: l) = a :: splitByL p l := by
  induction a with
  | nil => simp [splitByL, hc]
  | cons d rest ih =>
    have hd := ha d (by simp)
    have hrest := ih (fun e he => ha e (by simp [he]))
    simp only [List.cons_append, splitByL, hd]
    simp only [List.append_eq] at hrest ⊢
    rw [hrest]
    simp

set_option maxRecDepth 10000 in
lemma decRepr_roundtrip :
    ∀ v < 256, decVal (toString v).toList = v ∧ canonDec (toString v).toList = true := by
  decide

lemma toString_quadPartOk {v : Nat} (h : v ≤ 255) : quadPartOk (toString v).toList = true := by
  obtain ⟨h1, h2⟩ := decRepr_roundtrip v (by omega)
  simp only [quadPartOk, Bool.and_eq_true, decide_eq_true_eq]
  exact ⟨h2, by rw [h1]; exact h⟩

lemma quadPartOk_digits {p : List Char} (h : quadPartOk p = true) :
    (∀ c ∈ p, c.isDigit = true) ∧ p ≠ [] := by
  simp only [quadPartOk, canonDec, allDigits, Bool.and_eq_true, List.all_eq_true,
    decide_eq_true_eq, ne_eq] at h
  obtain ⟨⟨⟨hne, hdig⟩, _⟩, _⟩ := h
  exact ⟨hdig, hne⟩

lemma toString_digits {v : Nat} (h : v ≤ 255) : ∀ c ∈ (toString v).toList, c.isDigit = true :=
  (quadPartOk_digits (toString_quadPartOk h)).1

lemma toString_ne_nil {v : Nat} (h : v ≤ 255) : (toString v).toList ≠ [] :=
  (quadPartOk_digits (toString_quadPartOk h)).2

lemma splitByL_interL {p : Char → Bool} {sep : Char} (hs : p sep = true) :
    ∀ parts : List (List Char), parts ≠ [] →
      (∀ q ∈ parts, ∀ c ∈ q, p c = false) →
      splitByL p (interL [sep] parts) = parts := by
  intro parts
  induction parts with
  | nil => intro h; exact absurd rfl h
  | cons q rest ih =>
    intro _ hall
    match rest, ih with
    | [], _ => exact splitByL_not_mem q (hall q (by simp))
    | r :: rs, ih =>
      have h1 : interL [sep] (q :: r :: rs) = q ++ sep :: interL [sep] (r :: rs) := by
        simp [interL]
      rw [h1, splitByL_append q (hall q (by simp)) sep hs]
      rw [ih (by simp) (fun q' hq' => hall q' (by simp [hq']))]

lemma getD_filter_le {a len v : Nat} (idx : Nat) (hle : a + len ≤ 256) :
    ((List.range' a len).filter (fun x => x ≠ v)).getD idx 0 ≤ 255 := by
  rcases Nat.lt_or_ge idx ((List.range' a len).filter (fun x => x ≠ v)).length with hlt | hge
  · have hmem : ((List.range' a len).filter (fun x => x ≠ v)).getD idx 0 ∈
        (List.range' a len).filter (fun x => x ≠ v) := by
      rw [List.getD_eq_getElem?_getD, List.getElem?_eq_getElem hlt]
      exact List.getElem_mem hlt
    have h1 := (List.mem_filter.mp hmem).1
    have h2 := List.mem_range'_1.mp h1
    omega
  · rw [List.getD_eq_default _ _ hge]
    omega

lemma filter_ne_pos {a len v : Nat} (h2 : 2 ≤ len) :
    0 < ((List.range' a len).filter (fun x => x ≠ v)).length := by
  have ha : a ∈ List.range' a len := List.mem_range'_1.mpr ⟨le_refl _, by omega⟩
  have ha1 : a + 1 ∈ List.range' a len := List.mem_range'_1.mpr ⟨by omega, by omega⟩
  apply List.length_pos.mpr
  by_cases hv : a = v
  · apply List.ne_nil_of_mem (a := a + 1)
    exact List.mem_filter.mpr ⟨ha1, by simp; omega⟩
  · apply List.ne_nil_of_mem (a := a)
    exact List.mem_filter.mpr ⟨ha, by simpa using hv⟩

lemma getD_filter_ne {a len v : Nat} (r : Nat) (h2 : 2 ≤ len) :
    ((List.range' a len).filter (fun x => x ≠ v)).getD
      (r % ((List.range' a len).filter (fun x => x ≠ v)).length) 0 ≠ v := by
  have hpos : 0 < ((List.range' a len).filter (fun x => x ≠ v)).length := filter_ne_pos h2
  have hlt : r % ((List.range' a len).filter (fun x => x ≠ v)).length <
      ((List.range' a len).filter (fun x => x ≠ v)).length := Nat.mod_lt _ hpos
  have hmem : ((List.range' a len).filter (fun x => x ≠ v)).getD
      (r % ((List.range' a len).filter (fun x => x ≠ v)).length) 0 ∈
      (List.range' a len).filter (fun x => x ≠ v) := by
    rw [List.getD_eq_getElem?_getD, List.getElem?_eq_getElem hlt]
    exact List.getElem_mem hlt
  have := (List.mem_filter.mp hmem).2
  simpa using this

lemma findBand_ipv4 (v : Nat) :
    findBand 0 [10, 100, 256] v =
      if v < 10 then some (0, 10)
      else if v < 100 then some (10, 100)
      else if v < 256 then some (100, 256) else none := by
  simp only [findBand]
  split_ifs <;> simp_all <;> omega

lemma pickedValue_le (v r : Nat) : pickedValue v r ≤ 255 := by
  unfold pickedValue
  by_cases h0 : v = 0
  · simp [h0]
  · rw [if_neg h0, findBand_ipv4]
    split_ifs with h1 h2 h3
    · exact getD_filter_le _ (by omega)
    · exact getD_filter_le _ (by omega)
    · exact getD_filter_le _ (by omega)
    · simp

lemma pickedValue_ne {v : Nat} (r : Nat) (h0 : 0 < v) (h255 : v ≤ 255) :
    pickedValue v r ≠ v := by
  unfold pickedValue
  rw [if_neg (by omega), findBand_ipv4]
  split_ifs with h1 h2 h3
  · exact getD_filter_ne r (by omega)
  · exact getD_filter_ne r (by omega)
  · exact getD_filter_ne r (by omega)
  · omega

lemma pick_ipv4_eq (o : Octet) (r : Nat) (hn : o.netType = "ipv4")
    (hne : o.data.toList ≠ []) :
    pick_new_octet_value o r = toString (pickedValue o.value r) := by
  unfold pick_new_octet_value pickedValue
  rw [hn]
  by_cases h0 : o.value = 0
  · rw [if_pos h0, if_pos h0]
    rfl
  · rw [if_neg h0, if_neg h0]
    simp only [String.reduceEq, reduceIte]
    cases hband : findBand 0 [10, 100, 256] o.value with
    | none =>
      simp only [if_pos (Or.inl trivial)]
      rfl
    | some se => rfl

lemma mem_interL {c : Char} {sep : List Char} : ∀ {parts : List (List Char)},
    c ∈ interL sep parts → (∃ q ∈ parts, c ∈ q) ∨ c ∈ sep := by
  intro parts
  induction parts with
  | nil => simp [interL]
  | cons q rest ih =>
    match rest, ih with
    | [], _ =>
      intro hc
      exact Or.inl ⟨q, by simp, by simpa [interL] using hc⟩
    | r :: rs, ih =>
      intro hc
      have : interL sep (q :: r :: rs) = q ++ sep ++ interL sep (r :: rs) := by simp [interL]
      rw [this] at hc
      rcases List.mem_append.mp hc with hc' | hc'
      · rcases List.mem_append.mp hc' with hq | hs
        · exact Or.inl ⟨q, by simp, hq⟩
        · exact Or.inr hs
      · rcases ih hc' with ⟨q', hq', hcq⟩ | hs
        · exact Or.inl ⟨q', by simp [hq'], hcq⟩
        · exact Or.inr hs

lemma quadChar_not_space {c : Char} (h : c.isDigit = true ∨ c = '.') :
    pyIsSpace c = false := by
  rcases h with h | rfl
  · exact digit_not_space h
  · decide

lemma quadChar_not_slash {c : Char} (h : c.isDigit = true ∨ c = '.') :
    (decide (c = '/')) = false := by
  rcases h with h | rfl
  · simpa using digit_ne_slash h
  · decide

/-- Explicit form of a successful `parseQuad`. -/
lemma parseQuad_explicit {addr : String} {parts : List (List Char)}
    (hq : parseQuad addr = some parts) :
    ∃ p0 p1 p2 p3 : List Char, parts = [p0, p1, p2, p3] ∧
      quadPartOk p0 = true ∧ quadPartOk p1 = true ∧ quadPartOk p2 = true ∧
      quadPartOk p3 = true ∧
      mkOctets addr "ipv4" = ⟨addr, "ipv4",
        [⟨"ipv4", String.mk p0, 0⟩, ⟨"ipv4", String.mk p1, 1⟩,
         ⟨"ipv4", String.mk p2, 2⟩, ⟨"ipv4", String.mk p3, 3⟩]⟩ ∧
      (∀ c ∈ addr.toList, c.isDigit = true ∨ c = '.') := by
  have hq' := hq
  unfold parseQuad at hq'
  split_ifs at hq' with hcond
  · obtain ⟨hlen, hall, hchars⟩ := hcond
    simp only [Option.some.injEq] at hq'
    subst hq'
    rcases hp : splitSepsL addr.toList with _ | ⟨p0, _ | ⟨p1, _ | ⟨p2, _ | ⟨p3, _ | rest⟩⟩⟩⟩ <;>
      rw [hp] at hlen <;> simp at hlen
    rw [hp] at hall
    simp only [List.all_eq_true] at hall hchars
    have hchars' : ∀ c ∈ addr.toList, c.isDigit = true ∨ c = '.' := by
      intro c hc
      have := hchars c hc
      simpa using this
    have hstrip : pyStrip addr = addr :=
      pyStrip_eq_self _ (fun c hc => quadChar_not_space (hchars' c hc))
    have hany : addr.toList.any isSep = true := by
      by_contra hno
      have hnosep : ∀ c ∈ addr.toList, isSep c = false := by
        intro c hc
        cases hcs : isSep c with
        | false => rfl
        | true => exact absurd (List.any_eq_true.mpr ⟨c, hc, hcs⟩) hno
      have := splitByL_not_mem addr.toList hnosep
      rw [show splitSepsL addr.toList = splitByL isSep addr.toList from rfl, this] at hp
      simp at hp
    have hmk : mkOctets addr "ipv4" = ⟨addr, "ipv4",
        [⟨"ipv4", String.mk p0, 0⟩, ⟨"ipv4", String.mk p1, 1⟩,
         ⟨"ipv4", String.mk p2, 2⟩, ⟨"ipv4", String.mk p3, 3⟩]⟩ := by
      unfold mkOctets
      rw [hstrip, if_pos hany, hp]
      rfl
    exact ⟨p0, p1, p2, p3, rfl, hall p0 (by simp), hall p1 (by simp), hall p2 (by simp),
      hall p3 (by simp), hmk, hchars'⟩

/-- Explicit form of a successfully parsed IPv4 state. -/
lemma ipv4FromString_explicit {text : String} {st : IPv4State}
    (h : ipv4FromString text = some st) :
    ∃ p0 p1 p2 p3 : List Char,
      quadPartOk p0 = true ∧ quadPartOk p1 = true ∧ quadPartOk p2 = true ∧
      quadPartOk p3 = true ∧
      st.octets = ⟨st.address, "ipv4",
        [⟨"ipv4", String.mk p0, 0⟩, ⟨"ipv4", String.mk p1, 1⟩,
         ⟨"ipv4", String.mk p2, 2⟩, ⟨"ipv4", String.mk p3, 3⟩]⟩ ∧
      parseQuad st.address = some [p0, p1, p2, p3] ∧
      (∀ c ∈ st.address.toList, c.isDigit = true ∨ c = '.') ∧
      (st.subnet = "" ∨ subnetOk st.subnet = true) := by
  unfold ipv4FromString at h
  rcases hL : (splitByL (fun c => decide (c = '/')) text.toList).map String.mk with
    _ | ⟨addr, _ | ⟨sub, _ | ⟨x, rest⟩⟩⟩
  · rw [hL] at h
    exact absurd h (by simp)
  · rw [hL] at h
    have h2 : (match parseQuad addr with
      | some _ => some (⟨addr, "", mkOctets addr "ipv4"⟩ : IPv4State)
      | none => none) = some st := h
    cases hq : parseQuad addr with
    | none =>
      rw [hq] at h2
      exact absurd h2 (by simp)
    | some parts =>
      rw [hq] at h2
      simp only [Option.some.injEq] at h2
      subst h2
      obtain ⟨p0, p1, p2, p3, hparts, h0, h1, h2, h3, hmk, hchars⟩ := parseQuad_explicit hq
      subst hparts
      exact ⟨p0, p1, p2, p3, h0, h1, h2, h3, by simpa using hmk, hq, hchars, Or.inl rfl⟩
  · rw [hL] at h
    have h2 : (match parseQuad addr with
      | some _ =>
        if subnetOk sub = true then some (⟨addr, sub, mkOctets addr "ipv4"⟩ : IPv4State)
        else none
      | none => none) = some st := h
    cases hq : parseQuad addr with
    | none =>
      rw [hq] at h2
      exact absurd h2 (by simp)
    | some parts =>
      rw [hq] at h2
      by_cases hsub : subnetOk sub = true
      · rw [if_pos hsub] at h2
        simp only [Option.some.injEq] at h2
        subst h2
        obtain ⟨p0, p1, p2, p3, hparts, h0, h1, h2, h3, hmk, hchars⟩ := parseQuad_explicit hq
        subst hparts
        exact ⟨p0, p1, p2, p3, h0, h1, h2, h3, by simpa using hmk, hq, hchars, Or.inr hsub⟩
      · rw [if_neg hsub] at h2
        exact absurd h2 (by simp)
  · rw [hL] at h
    exact absurd h (by simp)

lemma octet_value_mk (p : List Char) (pos : Nat) (hne : p ≠ []) :
    Octet.value ⟨"ipv4", String.mk p, pos⟩ = decVal p := by
  simp only [Octet.value, toList_mk]
  rw [if_neg (by simpa using hne)]
  simp

lemma decVal_pos_of_head {c : Char} {rest : List Char} (hd : c.isDigit = true)
    (hne : c ≠ '0') : 0 < decVal (c :: rest) := by
  have hdv : 1 ≤ decDigitVal c := by
    simp only [Char.isDigit, Bool.and_eq_true, decide_eq_true_eq] at hd
    have h48 : c.toNat ≠ 48 := by
      intro hc
      exact hne (Char.eq_of_val_eq (UInt32.ext (by simpa [Char.toNat] using hc)))
    have h1 : 48 ≤ c.toNat := by
      simpa [Char.le_def, Char.toNat] using hd.1
    simp only [decDigitVal]
    omega
  have hstep : ∀ (l : List Char) (a : Nat), 1 ≤ a →
      1 ≤ l.foldl (fun a c => a * 10 + decDigitVal c) a := by
    intro l
    induction l with
    | nil => intro a ha; simpa using ha
    | cons d ds ih =>
      intro a ha
      simp only [List.foldl_cons]
      exact ih _ (by omega)
  have : decVal (c :: rest) =
      rest.foldl (fun a c => a * 10 + decDigitVal c) (decDigitVal c) := by
    simp [decVal]
  rw [this]
  exact hstep rest _ hdv

lemma canon_zero {p : List Char} (hq : quadPartOk p = true) (hz : decVal p = 0) :
    p = ['0'] := by
  obtain ⟨hdig, hne⟩ := quadPartOk_digits hq
  have hcanon : ¬p.head? = some '0' ∨ p = ['0'] := by
    simp only [quadPartOk, canonDec, Bool.and_eq_true, Bool.or_eq_true,
      decide_eq_true_eq] at hq
    exact hq.1.2
  rcases hcanon with hh | hp
  · cases p with
    | nil => exact absurd rfl hne
    | cons c rest =>
      have hc0 : c ≠ '0' := by
        intro h0
        exact hh (by simp [h0])
      have hpos : 0 < decVal (c :: rest) := decVal_pos_of_head (hdig c (by simp)) hc0
      omega
  · exact hp

/-- `info.value` of a parsed state in terms of its four octet values. -/
lemma IPv4value_explicit (st : IPv4State) (p0 p1 p2 p3 : List Char)
    (hoct : st.octets = ⟨st.address, "ipv4",
      [⟨"ipv4", String.mk p0, 0⟩, ⟨"ipv4", String.mk p1, 1⟩,
       ⟨"ipv4", String.mk p2, 2⟩, ⟨"ipv4", String.mk p3, 3⟩]⟩)
    (h0 : p0 ≠ []) (h1 : p1 ≠ []) (h2 : p2 ≠ []) (h3 : p3 ≠ []) :
    st.value = ((decVal p0 * 256 + decVal p1) * 256 + decVal p2) * 256 + decVal p3 := by
  simp only [IPv4State.value, hoct, List.foldl_cons, List.foldl_nil,
    octet_value_mk p0 0 h0, octet_value_mk p1 1 h1, octet_value_mk p2 2 h2,
    octet_value_mk p3 3 h3]
  omega

lemma quadPartOk_le {p : List Char} (h : quadPartOk p = true) : decVal p ≤ 255 := by
  simp only [quadPartOk, Bool.and_eq_true, decide_eq_true_eq] at h
  exact h.2

lemma quadJoin_chars {w0 w1 w2 w3 : Nat} (h0 : w0 ≤ 255) (h1 : w1 ≤ 255)
    (h2 : w2 ≤ 255) (h3 : w3 ≤ 255) :
    ∀ c ∈ interL ['.'] [(toString w0).toList, (toString w1).toList,
      (toString w2).toList, (toString w3).toList], c.isDigit = true ∨ c = '.' := by
  intro c hc
  rcases mem_interL hc with ⟨q, hq, hcq⟩ | hs
  · left
    simp only [List.mem_cons, List.not_mem_nil, or_false] at hq
    rcases hq with rfl | rfl | rfl | rfl
    · exact toString_digits h0 c hcq
    · exact toString_digits h1 c hcq
    · exact toString_digits h2 c hcq
    · exact toString_digits h3 c hcq
  · right
    simpa using hs

lemma joinSep_toList (sep : List Char) (parts : List String) :
    (joinSep sep parts).toList = interL sep (parts.map String.toList) := rfl

lemma splitSepsL_join4 {w0 w1 w2 w3 : Nat} (h0 : w0 ≤ 255) (h1 : w1 ≤ 255)
    (h2 : w2 ≤ 255) (h3 : w3 ≤ 255) :
    splitSepsL (joinSep ['.'] [toString w0, toString w1, toString w2,
        toString w3]).toList =
      [(toString w0).toList, (toString w1).toList, (toString w2).toList,
       (toString w3).toList] := by
  rw [joinSep_toList]
  apply splitByL_interL (by decide) _ (by simp)
  intro q hq c hc
  simp only [List.map, List.mem_cons, List.not_mem_nil, or_false] at hq
  rcases hq with rfl | rfl | rfl | rfl
  · exact digit_not_sep (toString_digits h0 c hc)
  · exact digit_not_sep (toString_digits h1 c hc)
  · exact digit_not_sep (toString_digits h2 c hc)
  · exact digit_not_sep (toString_digits h3 c hc)

lemma mkOctets_join4 {w0 w1 w2 w3 : Nat} (h0 : w0 ≤ 255) (h1 : w1 ≤ 255)
    (h2 : w2 ≤ 255) (h3 : w3 ≤ 255) :
    mkOctets (joinSep ['.'] [toString w0, toString w1, toString w2, toString w3]) "ipv4" =
      ⟨joinSep ['.'] [toString w0, toString w1, toString w2, toString w3], "ipv4",
       [⟨"ipv4", toString w0, 0⟩, ⟨"ipv4", toString w1, 1⟩,
        ⟨"ipv4", toString w2, 2⟩, ⟨"ipv4", toString w3, 3⟩]⟩ := by
  have hchars' : ∀ c ∈ (joinSep ['.'] [toString w0, toString w1, toString w2,
      toString w3]).toList, c.isDigit = true ∨ c = '.' := by
    rw [joinSep_toList]
    exact quadJoin_chars h0 h1 h2 h3
  have hstrip := pyStrip_eq_self _ (fun c hc => quadChar_not_space (hchars' c hc))
  have hany : (joinSep ['.'] [toString w0, toString w1, toString w2,
      toString w3]).toList.any isSep = true := by
    apply List.any_eq_true.mpr
    refine ⟨'.', ?_, by decide⟩
    rw [joinSep_toList]
    simp only [List.map, interL]
    simp
  unfold mkOctets
  rw [hstrip, if_pos hany, splitSepsL_join4 h0 h1 h2 h3]
  simp [List.enum, List.enumFrom, mk_toList]

lemma parseQuad_join4 {w0 w1 w2 w3 : Nat} (h0 : w0 ≤ 255) (h1 : w1 ≤ 255)
    (h2 : w2 ≤ 255) (h3 : w3 ≤ 255) :
    parseQuad (joinSep ['.'] [toString w0, toString w1, toString w2, toString w3]) =
      some [(toString w0).toList, (toString w1).toList, (toString w2).toList,
            (toString w3).toList] := by
  unfold parseQuad
  rw [splitSepsL_join4 h0 h1 h2 h3]
  rw [if_pos]
  refine ⟨by simp, ?_, ?_⟩
  · apply List.all_eq_true.mpr
    intro q hq
    simp only [List.mem_cons, List.not_mem_nil, or_false] at hq
    rcases hq with rfl | rfl | rfl | rfl
    · exact toString_quadPartOk h0
    · exact toString_quadPartOk h1
    · exact toString_quadPartOk h2
    · exact toString_quadPartOk h3
  · apply List.all_eq_true.mpr
    intro c hc
    have := quadJoin_chars h0 h1 h2 h3 c (by rw [joinSep_toList] at hc; exact hc)
    rcases this with hd | rfl
    · simp [hd]
    · simp

lemma subnetOk_digits {sub : String} (h : subnetOk sub = true) :
    ∀ c ∈ sub.toList, c.isDigit = true := by
  simp only [subnetOk, allDigits, Bool.and_eq_true, List.all_eq_true,
    decide_eq_true_eq, ne_eq] at h
  exact fun c hc => h.1.1.1.2 c hc

lemma ipv4FromString_noslash {addr : String}
    (hchars : ∀ c ∈ addr.toList, c.isDigit = true ∨ c = '.')
    {parts : List (List Char)} (hq : parseQuad addr = some parts) :
    ipv4FromString addr = some ⟨addr, "", mkOctets addr "ipv4"⟩ := by
  unfold ipv4FromString
  have hns : splitByL (fun c => decide (c = '/')) addr.toList = [addr.toList] :=
    splitByL_not_mem _ (fun c hc => quadChar_not_slash (hchars c hc))
  rw [hns]
  show (match parseQuad addr with
    | some _ => some (⟨addr, "", mkOctets addr "ipv4"⟩ : IPv4State)
    | none => none) = _
  rw [hq]

lemma ipv4FromString_slash {addr sub : String}
    (hchars : ∀ c ∈ addr.toList, c.isDigit = true ∨ c = '.')
    (hsubok : subnetOk sub = true)
    {parts : List (List Char)} (hq : parseQuad addr = some parts) :
    ipv4FromString (addr ++ "/" ++ sub) = some ⟨addr, sub, mkOctets addr "ipv4"⟩ := by
  unfold ipv4FromString
  have hsplit2 : splitByL (fun c => decide (c = '/')) (addr ++ "/" ++ sub).toList =
      [addr.toList, sub.toList] := by
    have happ : (addr ++ "/" ++ sub).toList = addr.toList ++ '/' :: sub.toList := by
      show (addr ++ "/" ++ sub).data = addr.data ++ '/' :: sub.data
      rw [String.data_append, String.data_append, List.append_assoc]
      rfl
    rw [happ, splitByL_append _ (fun c hc => quadChar_not_slash (hchars c hc)) '/' (by decide)]
    rw [splitByL_not_mem _ (fun c hc => by
      simpa using digit_ne_slash (subnetOk_digits hsubok c hc))]
  rw [hsplit2]
  show (match parseQuad addr with
    | some _ =>
      if subnetOk sub = true then some (⟨addr, sub, mkOctets addr "ipv4"⟩ : IPv4State)
      else none
    | none => none) = _
  rw [hq, if_pos hsubok]

/-- Data, value and position of a regenerated IPv4 octet. -/
lemma genOctet_spec (o : Octet) (r : Nat) (hn : o.netType = "ipv4")
    (hne : o.data.toList ≠ []) :
    (o.generate_new r).data = toString (pickedValue o.value r) ∧
    (o.generate_new r).value = pickedValue o.value r ∧
    (o.generate_new r).position = o.position ∧
    (o.generate_new r).netType = "ipv4" := by
  have hpick := pick_ipv4_eq o r hn hne
  have hle := pickedValue_le o.value r
  obtain ⟨w, hw⟩ : ∃ w, pickedValue o.value r = w := ⟨_, rfl⟩
  rw [hw] at hpick hle ⊢
  obtain ⟨hrt, hcanon⟩ := decRepr_roundtrip w (by omega)
  have hvne : (toString w).toList ≠ [] := toString_ne_nil hle
  refine ⟨?_, ?_, rfl, ?_⟩
  · simpa [Octet.generate_new] using hpick
  · simp only [Octet.value, Octet.generate_new, hpick, hn]
    rw [if_neg (by simpa using hvne)]
    simpa using hrt
  · simpa [Octet.generate_new] using hn

end Net

end RewordApp

namespace RewordApp

namespace Net

lemma octets_get_explicit (a : String) (nt : String) (o0 o1 o2 o3 : Octet) :
    (Octets.mk a nt [o0, o1, o2, o3]).get 0 = o0 ∧
    (Octets.mk a nt [o0, o1, o2, o3]).get 1 = o1 ∧
    (Octets.mk a nt [o0, o1, o2, o3]).get 2 = o2 ∧
    (Octets.mk a nt [o0, o1, o2, o3]).get 3 = o3 := by
  refine ⟨rfl, rfl, rfl, rfl⟩

/-- One regeneration pass of `Octets.generate_new` on a parsed quad,
rendered and re-parsed. -/
lemma octets_generate_new_explicit {text : String} {st : IPv4State}
    (h : ipv4FromString text = some st) (rng : Nat → Nat) :
    st.octets.generate_new rng =
      mkOctets (joinSep ['.'] ((genVals st rng).map toString)) "ipv4" := by
  obtain ⟨p0, p1, p2, p3, h0, h1, h2, h3, hoct, hq, hchars, hsub⟩ := ipv4FromString_explicit h
  obtain ⟨hd0, hne0⟩ := quadPartOk_digits h0
  obtain ⟨hd1, hne1⟩ := quadPartOk_digits h1
  obtain ⟨hd2, hne2⟩ := quadPartOk_digits h2
  obtain ⟨hd3, hne3⟩ := quadPartOk_digits h3
  have hg0 := (genOctet_spec ⟨"ipv4", String.mk p0, 0⟩ (rng 0) rfl (by simpa using hne0)).2.1
  have hg1 := (genOctet_spec ⟨"ipv4", String.mk p1, 1⟩ (rng 1) rfl (by simpa using hne1)).2.1
  have hg2 := (genOctet_spec ⟨"ipv4", String.mk p2, 2⟩ (rng 2) rfl (by simpa using hne2)).2.1
  have hg3 := (genOctet_spec ⟨"ipv4", String.mk p3, 3⟩ (rng 3) rfl (by simpa using hne3)).2.1
  rw [hoct]
  simp only [genVals, hoct]
  show mkOctets (joinSep ['.']
      ((if (Octets.mk st.address "ipv4"
            [⟨"ipv4", String.mk p0, 0⟩, ⟨"ipv4", String.mk p1, 1⟩,
             ⟨"ipv4", String.mk p2, 2⟩, ⟨"ipv4", String.mk p3, 3⟩]).total_nonzero_octet ≤ 1
        then [Octet.generate_new ⟨"ipv4", String.mk p0, 0⟩ (rng 0),
              Octet.generate_new ⟨"ipv4", String.mk p1, 1⟩ (rng 1),
              Octet.generate_new ⟨"ipv4", String.mk p2, 2⟩ (rng 2),
              Octet.generate_new ⟨"ipv4", String.mk p3, 3⟩ (rng 3)]
        else [⟨"ipv4", String.mk p0, 0⟩,
              Octet.generate_new ⟨"ipv4", String.mk p1, 1⟩ (rng 1),
              Octet.generate_new ⟨"ipv4", String.mk p2, 2⟩ (rng 2),
              Octet.generate_new ⟨"ipv4", String.mk p3, 3⟩ (rng 3)]).map
        (fun o => toString o.value))) "ipv4" = _
  by_cases hcnt : (Octets.mk st.address "ipv4"
      [⟨"ipv4", String.mk p0, 0⟩, ⟨"ipv4", String.mk p1, 1⟩,
       ⟨"ipv4", String.mk p2, 2⟩, ⟨"ipv4", String.mk p3, 3⟩]).total_nonzero_octet ≤ 1
  · rw [if_pos hcnt, if_pos hcnt]
    congr 2
    simp only [List.map_cons, List.map_nil]
    rw [hg0, hg1, hg2, hg3]
    rfl
  · rw [if_neg hcnt, if_neg hcnt]
    congr 2
    simp only [List.map_cons, List.map_nil]
    rw [hg1, hg2, hg3]
    rfl

lemma genVals_explicit {text : String} {st : IPv4State}
    (h : ipv4FromString text = some st) (rng : Nat → Nat) :
    ∃ w0 w1 w2 w3 : Nat, genVals st rng = [w0, w1, w2, w3] ∧
      w0 ≤ 255 ∧ w1 ≤ 255 ∧ w2 ≤ 255 ∧ w3 ≤ 255 := by
  obtain ⟨p0, p1, p2, p3, h0, h1, h2, h3, hoct, hq, hchars, hsub⟩ := ipv4FromString_explicit h
  unfold genVals
  by_cases hcnt : st.octets.total_nonzero_octet ≤ 1
  · rw [if_pos hcnt]
    exact ⟨_, _, _, _, rfl, pickedValue_le _ _, pickedValue_le _ _,
      pickedValue_le _ _, pickedValue_le _ _⟩
  · rw [if_neg hcnt]
    refine ⟨_, _, _, _, rfl, ?_, pickedValue_le _ _, pickedValue_le _ _, pickedValue_le _ _⟩
    rw [hoct]
    show Octet.value ⟨"ipv4", String.mk p0, 0⟩ ≤ 255
    rw [octet_value_mk p0 0 (quadPartOk_digits h0).2]
    exact quadPartOk_le h0

lemma to_address_mk4 {w0 w1 w2 w3 : Nat} (h0 : w0 ≤ 255) (h1 : w1 ≤ 255)
    (h2 : w2 ≤ 255) (h3 : w3 ≤ 255) (a : String) :
    (Octets.mk a "ipv4" [⟨"ipv4", toString w0, 0⟩, ⟨"ipv4", toString w1, 1⟩,
      ⟨"ipv4", toString w2, 2⟩, ⟨"ipv4", toString w3, 3⟩]).to_address =
      joinSep ['.'] [toString w0, toString w1, toString w2, toString w3] := by
  have e0 : Octet.value ⟨"ipv4", toString w0, 0⟩ = w0 := by
    rw [show Octet.value ⟨"ipv4", toString w0, 0⟩ = decVal (toString w0).toList from
      octet_value_mk (toString w0).toList 0 (toString_ne_nil h0)]
    exact (decRepr_roundtrip w0 (by omega)).1
  have e1 : Octet.value ⟨"ipv4", toString w1, 1⟩ = w1 := by
    rw [show Octet.value ⟨"ipv4", toString w1, 1⟩ = decVal (toString w1).toList from
      octet_value_mk (toString w1).toList 1 (toString_ne_nil h1)]
    exact (decRepr_roundtrip w1 (by omega)).1
  have e2 : Octet.value ⟨"ipv4", toString w2, 2⟩ = w2 := by
    rw [show Octet.value ⟨"ipv4", toString w2, 2⟩ = decVal (toString w2).toList from
      octet_value_mk (toString w2).toList 2 (toString_ne_nil h2)]
    exact (decRepr_roundtrip w2 (by omega)).1
  have e3 : Octet.value ⟨"ipv4", toString w3, 3⟩ = w3 := by
    rw [show Octet.value ⟨"ipv4", toString w3, 3⟩ = decVal (toString w3).toList from
      octet_value_mk (toString w3).toList 3 (toString_ne_nil h3)]
    exact (decRepr_roundtrip w3 (by omega)).1
  unfold Octets.to_address
  rw [if_pos rfl]
  congr 1
  simp only [List.map_cons, List.map_nil]
  rw [e0, e1, e2, e3]

lemma subnetOk_ne_empty {sub : String} (h : subnetOk sub = true) : sub ≠ "" := by
  simp only [subnetOk, allDigits, Bool.and_eq_true, decide_eq_true_eq, ne_eq] at h
  intro he
  exact h.1.1.1.1 (by simp [he])

/-- The freshly generated parser (`newP`) built inside
`IPv4Parser.generate_new`: render the regenerated octets, append the
subnet, re-parse. -/
lemma newP_explicit {text : String} {st : IPv4State}
    (h : ipv4FromString text = some st) (rng : Nat → Nat) :
    ipv4FromStringD (if st.subnet ≠ "" then
        (st.octets.generate_new rng).to_address ++ "/" ++ st.subnet
      else (st.octets.generate_new rng).to_address) =
      ⟨joinSep ['.'] ((genVals st rng).map toString), st.subnet,
       mkOctets (joinSep ['.'] ((genVals st rng).map toString)) "ipv4"⟩ := by
  obtain ⟨w0, w1, w2, w3, hgv, hw0, hw1, hw2, hw3⟩ := genVals_explicit h rng
  rw [octets_generate_new_explicit h rng, hgv]
  simp only [List.map_cons, List.map_nil]
  rw [mkOctets_join4 hw0 hw1 hw2 hw3, to_address_mk4 hw0 hw1 hw2 hw3]
  obtain ⟨p0, p1, p2, p3, h0, h1, h2, h3, hoct, hq, hchars, hsub⟩ := ipv4FromString_explicit h
  have hjchars : ∀ c ∈ (joinSep ['.'] [toString w0, toString w1, toString w2,
      toString w3]).toList, c.isDigit = true ∨ c = '.' := by
    rw [joinSep_toList]
    exact quadJoin_chars hw0 hw1 hw2 hw3
  rcases hsub with hempty | hsubok
  · rw [hempty]
    rw [if_neg (by simp)]
    unfold ipv4FromStringD
    rw [ipv4FromString_noslash hjchars (parseQuad_join4 hw0 hw1 hw2 hw3)]
    simp only [Option.getD_some]
    rw [mkOctets_join4 hw0 hw1 hw2 hw3]
  · rw [if_pos (subnetOk_ne_empty hsubok)]
    unfold ipv4FromStringD
    rw [ipv4FromString_slash hjchars hsubok (parseQuad_join4 hw0 hw1 hw2 hw3)]
    simp only [Option.getD_some]
    rw [mkOctets_join4 hw0 hw1 hw2 hw3]

/-- `IPv4Parser.generate_new` with no source parsers, off the netmask
branch. -/
lemma IPv4generate_new_nosrc {text : String} {st : IPv4State}
    (h : ipv4FromString text = some st) (hnm : is_valid_netmask st = false)
    (rng : Nat → Nat) :
    IPv4generate_new st [] rng =
      ⟨joinSep ['.'] ((genVals st rng).map toString), st.subnet,
       mkOctets (joinSep ['.'] ((genVals st rng).map toString)) "ipv4"⟩ := by
  unfold IPv4generate_new
  rw [if_neg (by simp [hnm])]
  show ipv4FromStringD (if st.subnet ≠ "" then
      (st.octets.generate_new rng).to_address ++ "/" ++ st.subnet
    else (st.octets.generate_new rng).to_address) = _
  exact newP_explicit h rng

lemma splitByL_ne_nil (p : Char → Bool) : ∀ l, splitByL p l ≠ [] := by
  intro l
  cases l with
  | nil => simp [splitByL]
  | cons c rest =>
    simp only [splitByL]
    split_ifs
    · simp
    · cases h : splitByL p rest <;> simp

lemma interL_splitByL (p : Char → Bool) (sep : Char) :
    ∀ l : List Char, (∀ c ∈ l, p c = true → c = sep) →
      interL [sep] (splitByL p l) = l := by
  intro l
  induction l with
  | nil => simp [splitByL, interL]
  | cons c rest ih =>
    intro h
    have hr := ih (fun d hd hp => h d (by simp [hd]) hp)
    by_cases hc : p c = true
    · have hcs : c = sep := h c (by simp) hc
      subst hcs
      simp only [splitByL, hc, if_pos]
      cases hsr : splitByL p rest with
      | nil => exact absurd hsr (splitByL_ne_nil p rest)
      | cons q qs =>
        rw [hsr] at hr
        show [] ++ [c] ++ interL [c] (q :: qs) = c :: rest
        rw [hr]
        simp
    · simp only [splitByL, hc]
      cases hsr : splitByL p rest with
      | nil => exact absurd hsr (splitByL_ne_nil p rest)
      | cons q qs =>
        rw [hsr] at hr
        simp only [Bool.false_eq_true, if_false]
        cases qs with
        | nil =>
          simp only [interL] at hr ⊢
          rw [hr]
        | cons q2 qs2 =>
          show (c :: q) ++ [sep] ++ interL [sep] (q2 :: qs2) = c :: rest
          rw [← hr]
          simp [interL]

/-- A parsed address text is the dot-join of its parts. -/
lemma address_interL {addr : String} {parts : List (List Char)}
    (hq : parseQuad addr = some parts)
    (hchars : ∀ c ∈ addr.toList, c.isDigit = true ∨ c = '.') :
    addr.toList = interL ['.'] parts := by
  have hsplit : splitSepsL addr.toList = parts := by
    unfold parseQuad at hq
    split_ifs at hq with hcond
    simpa using hq
  rw [← hsplit]
  rw [show splitSepsL addr.toList = splitByL isSep addr.toList from rfl]
  rw [interL_splitByL isSep '.' addr.toList]
  intro c hc hsep
  rcases hchars c hc with hd | rfl
  · exact absurd hsep (by simp [digit_not_sep hd])
  · rfl

/-- The netmask early return re-parses `info.address` verbatim. -/
lemma netmask_generate_address {text : String} {st : IPv4State}
    (hp : ipv4FromString text = some st) (hmask : is_valid_netmask st = true)
    (sources : List IPv4Source) (rng : Nat → Nat) :
    (IPv4generate_new st sources rng).address = st.address := by
  obtain ⟨p0, p1, p2, p3, h0, h1, h2, h3, hoct, hq, hchars, hsub⟩ := ipv4FromString_explicit hp
  unfold IPv4generate_new
  rw [if_pos hmask]
  unfold ipv4FromStringD
  rw [ipv4FromString_noslash hchars hq]
  rfl

/-- An all-zero parsed address regenerates every octet back to zero. -/
lemma generate_zero_address {text : String} {st : IPv4State}
    (hp : ipv4FromString text = some st) (hv : st.value = 0) (rng : Nat → Nat) :
    (IPv4generate_new st [] rng).address = st.address := by
  obtain ⟨p0, p1, p2, p3, h0, h1, h2, h3, hoct, hq, hchars, hsub⟩ := ipv4FromString_explicit hp
  have hvals := IPv4value_explicit st p0 p1 p2 p3 hoct (quadPartOk_digits h0).2
    (quadPartOk_digits h1).2 (quadPartOk_digits h2).2 (quadPartOk_digits h3).2
  rw [hv] at hvals
  have hz0 : decVal p0 = 0 := by omega
  have hz1 : decVal p1 = 0 := by omega
  have hz2 : decVal p2 = 0 := by omega
  have hz3 : decVal p3 = 0 := by omega
  have hp0 := canon_zero h0 hz0
  have hp1 := canon_zero h1 hz1
  have hp2 := canon_zero h2 hz2
  have hp3 := canon_zero h3 hz3
  subst hp0 hp1 hp2 hp3
  have hnm : is_valid_netmask st = false := by
    unfold is_valid_netmask
    rw [hv]
    decide
  rw [IPv4generate_new_nosrc hp hnm rng]
  show joinSep ['.'] ((genVals st rng).map toString) = st.address
  have hcnt : st.octets.total_nonzero_octet ≤ 1 := by
    rw [hoct]
    show (([(⟨"ipv4", String.mk ['0'], 0⟩ : Octet), ⟨"ipv4", String.mk ['0'], 1⟩,
      ⟨"ipv4", String.mk ['0'], 2⟩, ⟨"ipv4", String.mk ['0'], 3⟩]).filter
        (fun o => decide (0 < o.value))).length ≤ 1
    decide
  have hg : genVals st rng = [0, 0, 0, 0] := by
    unfold genVals
    rw [if_pos hcnt, hoct]
    rfl
  rw [hg]
  have haddr : st.address = "0.0.0.0" := by
    have htl := address_interL hq hchars
    have : st.address = String.mk st.address.toList := (mk_toList st.address).symm
    rw [this, htl]
    rfl
  rw [haddr]
  rfl

/-- `generate_new` with an identical-valued source: the new parser is
synced from the source's generated parser. -/
lemma IPv4generate_new_sync {text : String} {st : IPv4State}
    (h : ipv4FromString text = some st) (hnm : is_valid_netmask st = false)
    (sources : List IPv4Source) (rng : Nat → Nat)
    {src : IPv4Source} {rest : List IPv4Source}
    (hfil : (sources.filter (fun s => s.version = 4)).filter
        (fun s => s.st.value = st.value) = src :: rest) :
    IPv4generate_new st sources rng =
      sync_octets ⟨joinSep ['.'] ((genVals st rng).map toString), st.subnet,
        mkOctets (joinSep ['.'] ((genVals st rng).map toString)) "ipv4"⟩ src.newParser := by
  have hbase : (sources.filter (fun s => s.version = 4)).isEmpty = false := by
    cases hb : sources.filter (fun s => s.version = 4) with
    | nil => rw [hb] at hfil; simp at hfil
    | cons a l => simp
  unfold IPv4generate_new
  rw [if_neg (by simp [hnm])]
  simp only [hbase, hfil, Bool.false_eq_true, if_false]
  rw [newP_explicit h rng]

/-- After `sync_octets`, every octet value equals the source's value at
the same position. -/
lemma sync_octets_get_value (self other : IPv4State)
    (h1 : self.octets.octets.length = 4) (h2 : other.octets.octets.length = 4)
    (i : Nat) (hi : i ≤ 3) :
    ((sync_octets self other).octets.get i).value = (other.octets.get i).value := by
  have hi4 : i = 0 ∨ i = 1 ∨ i = 2 ∨ i = 3 := by omega
  obtain ⟨a, sub, ⟨ad, nt, l⟩⟩ := self
  obtain ⟨a2, sub2, ⟨ad2, nt2, l2⟩⟩ := other
  simp only at h1 h2
  rcases l with _ | ⟨x0, _ | ⟨x1, _ | ⟨x2, _ | ⟨x3, _ | lr⟩⟩⟩⟩ <;> simp at h1
  rcases l2 with _ | ⟨y0, _ | ⟨y1, _ | ⟨y2, _ | ⟨y3, _ | lr2⟩⟩⟩⟩ <;> simp at h2
  unfold sync_octets
  rw [if_pos (by simp)]
  rcases hi4 with rfl | rfl | rfl | rfl <;>
    · show Octet.value (ite _ _ _) = _
      split_ifs with hd
      · rfl
      · rw [not_not] at hd
        simpa using hd

lemma sync_octets_length (self other : IPv4State)
    (h1 : self.octets.octets.length = 4) (h2 : other.octets.octets.length = 4) :
    (sync_octets self other).octets.octets.length = 4 ∧
    (sync_octets self other).octets.netType = self.octets.netType := by
  unfold sync_octets
  rw [if_pos (by omega)]
  constructor
  · simp [List.length_map, List.enum_length, h1]
  · rfl

lemma octets_netType_mkJoin {w0 w1 w2 w3 : Nat} (h0 : w0 ≤ 255) (h1 : w1 ≤ 255)
    (h2 : w2 ≤ 255) (h3 : w3 ≤ 255) :
    (mkOctets (joinSep ['.'] [toString w0, toString w1, toString w2, toString w3])
      "ipv4").netType = "ipv4" ∧
    (mkOctets (joinSep ['.'] [toString w0, toString w1, toString w2, toString w3])
      "ipv4").octets.length = 4 := by
  rw [mkOctets_join4 h0 h1 h2 h3]
  exact ⟨rfl, rfl⟩

lemma to_address_eq_of_values (os1 os2 : Octets) (hn1 : os1.netType = "ipv4")
    (hn2 : os2.netType = "ipv4") (hl1 : os1.octets.length = 4) (hl2 : os2.octets.length = 4)
    (hv : ∀ i, i ≤ 3 → (os1.get i).value = (os2.get i).value) :
    os1.to_address = os2.to_address := by
  unfold Octets.to_address
  rw [if_pos hn1, if_pos hn2]
  congr 1
  apply List.ext_getElem
  · simp [hl1, hl2]
  · intro i hi1 hi2
    simp only [List.length_map, hl1] at hi1
    have hg1 : os1.octets[i] = os1.get i := by
      unfold Octets.get
      rw [List.getD_eq_getElem?_getD, List.getElem?_eq_getElem (by omega), Option.getD_some]
    have hg2 : os2.octets[i] = os2.get i := by
      unfold Octets.get
      rw [List.getD_eq_getElem?_getD, List.getElem?_eq_getElem (by omega), Option.getD_some]
    simp only [List.getElem_map]
    rw [hg1, hg2, hv i (by omega)]

lemma get_sync_by_position_ne (acc src : Octets) (j i : Nat) (hne : i ≠ j) :
    (acc.sync_by_position src j).get i = acc.get i := by
  unfold Octets.sync_by_position Octets.get
  simp only
  rw [List.getD_eq_getElem?_getD, List.getD_eq_getElem?_getD,
    List.getElem?_set_ne (by omega)]
  rw [← List.getD_eq_getElem?_getD]

lemma get_sync_by_position_self (acc src : Octets) (j : Nat)
    (hj : j < acc.octets.length) :
    (acc.sync_by_position src j).get j = src.get j := by
  unfold Octets.sync_by_position Octets.get
  simp only
  rw [List.getD_eq_getElem?_getD, List.getElem?_set_eq_of_lt _ (by simpa using hj)]
  rfl

lemma sync_by_position_length (os src : Octets) (j : Nat) :
    (os.sync_by_position src j).octets.length = os.octets.length := by
  simp [Octets.sync_by_position]

/-- `generate_new` with sources, no identical-valued source: the
per-position octet sync loop over indices 1–3. -/
lemma IPv4generate_new_fold {text : String} {st : IPv4State}
    (h : ipv4FromString text = some st) (hnm : is_valid_netmask st = false)
    (sources : List IPv4Source) (rng : Nat → Nat)
    (hbase : (sources.filter (fun s => s.version = 4)).isEmpty = false)
    (hnoid : (sources.filter (fun s => s.version = 4)).filter
        (fun s => s.st.value = st.value) = []) :
    IPv4generate_new st sources rng =
      (List.range' 1 3).foldl (fun acc index =>
        match (sources.filter (fun s => s.version = 4)).filter
            (fun s => s.st.octets.contains_octet (st.octets.get index)) with
        | m :: _ =>
          let syncedOctets := acc.octets.sync_by_position m.newParser.octets
            (st.octets.get index).position
          { acc with octets := syncedOctets }
        | [] => acc)
        ⟨joinSep ['.'] ((genVals st rng).map toString), st.subnet,
         mkOctets (joinSep ['.'] ((genVals st rng).map toString)) "ipv4"⟩ := by
  unfold IPv4generate_new
  rw [if_neg (by simp [hnm])]
  simp only [hbase, hnoid, Bool.false_eq_true, if_false]
  rw [newP_explicit h rng]

end Net

end RewordApp

namespace RewordApp

/-- **C4.**  For every parsed IPv4 address whose numeric value is a valid
contiguous netmask — including the edge masks 255.255.255.255 and
0.0.0.0 — `IPv4Parser.generate_new` returns a parser whose address
equals the original address, for every random draw.  Masks with at least
one host bit of padding take the `is_valid_netmask` early return (the
address is re-parsed verbatim); 0.0.0.0 fails `is_valid_netmask` but
every zero octet is regenerated to `"0"`, so the rendered address is
unchanged as well. -/
theorem C4_netmask_invariance (text : String) (st : Net.IPv4State)
    (hp : Net.ipv4FromString text = some st)
    (hmask : ∃ k, k ≤ 32 ∧ st.value = 2 ^ 32 - 2 ^ k)
    (rng : Nat → Nat) :
    (Net.IPv4generate_new st [] rng).address = st.address := by
  obtain ⟨k, hk, hv⟩ := hmask
  by_cases hk32 : k = 32
  · subst hk32
    have hz : st.value = 0 := by rw [hv]; norm_num
    exact Net.generate_zero_address hp hz rng
  · have hklt : k < 32 := by omega
    have hm : Net.is_valid_netmask st = true := by
      unfold Net.is_valid_netmask
      apply List.any_eq_true.mpr
      refine ⟨k, List.mem_range.mpr hklt, ?_⟩
      simp only [decide_eq_true_eq]
      rw [hv]
      exact Nat.sub_sub_self (Nat.pow_le_pow_right (by norm_num) hk)
    exact Net.netmask_generate_address hp hm [] rng

/-- Witness for C4 at the concrete netmask 255.255.255.0 (and the edge
mask 0.0.0.0), with an arbitrary concrete draw. -/
theorem C4_netmask_invariance_witness :
    (Net.IPv4generate_new (Net.ipv4FromStringD "255.255.255.0") [] (fun _ => 7)).address =
      (Net.ipv4FromStringD "255.255.255.0").address ∧
    (Net.IPv4generate_new (Net.ipv4FromStringD "0.0.0.0") [] (fun _ => 7)).address =
      (Net.ipv4FromStringD "0.0.0.0").address :=
  ⟨C4_netmask_invariance "255.255.255.0" _ (by decide) ⟨8, by decide, by decide⟩ _,
   C4_netmask_invariance "0.0.0.0" _ (by decide) ⟨32, by decide, by decide⟩ _⟩

end RewordApp

namespace RewordApp

/-- **C5 (counterexample).**  The claim "the first octet is preserved
verbatim and octets sharing an original value are re-randomized to the
same new value … including addresses with at most one non-zero octet" is
false on the code.  For `5.0.0.0` (not a netmask, one non-zero octet)
`Octets.generate_new` regenerates *all four* octets, so the first octet
changes (draw 0 picks a new value ≠ 5); and in `10.5.5.5` octets 2 and 3
share the original value 5 but are re-drawn with independent draws,
yielding different new values (draws 2 and 3 pick 2 and 3). -/
theorem C5_counterexample :
    Net.ipv4FromString "5.0.0.0" = some (Net.ipv4FromStringD "5.0.0.0") ∧
    Net.is_valid_netmask (Net.ipv4FromStringD "5.0.0.0") = false ∧
    ((Net.ipv4FromStringD "5.0.0.0").octets.get 0).value = 5 ∧
    ((Net.IPv4generate_new (Net.ipv4FromStringD "5.0.0.0") [] (fun _ => 0)).octets.get 0).value ≠
      ((Net.ipv4FromStringD "5.0.0.0").octets.get 0).value ∧
    Net.ipv4FromString "10.5.5.5" = some (Net.ipv4FromStringD "10.5.5.5") ∧
    Net.is_valid_netmask (Net.ipv4FromStringD "10.5.5.5") = false ∧
    ((Net.ipv4FromStringD "10.5.5.5").octets.get 2).value =
      ((Net.ipv4FromStringD "10.5.5.5").octets.get 3).value ∧
    ((Net.IPv4generate_new (Net.ipv4FromStringD "10.5.5.5") [] (fun i => i)).octets.get 2).value ≠
      ((Net.IPv4generate_new (Net.ipv4FromStringD "10.5.5.5") [] (fun i => i)).octets.get 3).value := by
  decide

end RewordApp

namespace RewordApp

/-- **C5 (amended).**  For a parsed IPv4 address that is not a valid
netmask: when at least two octets are non-zero the first octet is
preserved and octets 1–3 are re-randomized, each with its own
independent draw (`rng i`); when at most one octet is non-zero *all
four* octets are re-randomized.  A re-drawn octet never keeps its
(non-zero) original value, but octets sharing an original value receive
values chosen by independent draws and need not agree — document-wide
agreement is only enforced across parsers by the source-sync step, not
within one address. -/
theorem C5_amended_regeneration (text : String) (st : Net.IPv4State)
    (hp : Net.ipv4FromString text = some st)
    (hnm : Net.is_valid_netmask st = false) (rng : Nat → Nat) :
    (2 ≤ st.octets.total_nonzero_octet →
      ((Net.IPv4generate_new st [] rng).octets.get 0).value = (st.octets.get 0).value) ∧
    (st.octets.total_nonzero_octet ≤ 1 →
      ((Net.IPv4generate_new st [] rng).octets.get 0).value =
        Net.pickedValue (st.octets.get 0).value (rng 0)) ∧
    (∀ i, 1 ≤ i → i ≤ 3 →
      ((Net.IPv4generate_new st [] rng).octets.get i).value =
        Net.pickedValue (st.octets.get i).value (rng i)) ∧
    (∀ v r, 0 < v → v ≤ 255 → Net.pickedValue v r ≠ v) := by
  obtain ⟨w0, w1, w2, w3, hgv, hw0, hw1, hw2, hw3⟩ := Net.genVals_explicit hp rng
  have hres := Net.IPv4generate_new_nosrc hp hnm rng
  have hoctets : (Net.IPv4generate_new st [] rng).octets =
      ⟨Net.joinSep ['.'] [toString w0, toString w1, toString w2, toString w3], "ipv4",
       [⟨"ipv4", toString w0, 0⟩, ⟨"ipv4", toString w1, 1⟩,
        ⟨"ipv4", toString w2, 2⟩, ⟨"ipv4", toString w3, 3⟩]⟩ := by
    rw [hres]
    show Net.mkOctets (Net.joinSep ['.'] ((Net.genVals st rng).map toString)) "ipv4" = _
    rw [hgv]
    simp only [List.map_cons, List.map_nil]
    rw [Net.mkOctets_join4 hw0 hw1 hw2 hw3]
  have hv0 : ((Net.IPv4generate_new st [] rng).octets.get 0).value = w0 := by
    rw [hoctets]
    show Net.Octet.value ⟨"ipv4", toString w0, 0⟩ = w0
    rw [show Net.Octet.value ⟨"ipv4", toString w0, 0⟩ = decVal (toString w0).toList from
      Net.octet_value_mk (toString w0).toList 0 (Net.toString_ne_nil hw0)]
    exact (Net.decRepr_roundtrip w0 (by omega)).1
  have hv1 : ((Net.IPv4generate_new st [] rng).octets.get 1).value = w1 := by
    rw [hoctets]
    show Net.Octet.value ⟨"ipv4", toString w1, 1⟩ = w1
    rw [show Net.Octet.value ⟨"ipv4", toString w1, 1⟩ = decVal (toString w1).toList from
      Net.octet_value_mk (toString w1).toList 1 (Net.toString_ne_nil hw1)]
    exact (Net.decRepr_roundtrip w1 (by omega)).1
  have hv2 : ((Net.IPv4generate_new st [] rng).octets.get 2).value = w2 := by
    rw [hoctets]
    show Net.Octet.value ⟨"ipv4", toString w2, 2⟩ = w2
    rw [show Net.Octet.value ⟨"ipv4", toString w2, 2⟩ = decVal (toString w2).toList from
      Net.octet_value_mk (toString w2).toList 2 (Net.toString_ne_nil hw2)]
    exact (Net.decRepr_roundtrip w2 (by omega)).1
  have hv3 : ((Net.IPv4generate_new st [] rng).octets.get 3).value = w3 := by
    rw [hoctets]
    show Net.Octet.value ⟨"ipv4", toString w3, 3⟩ = w3
    rw [show Net.Octet.value ⟨"ipv4", toString w3, 3⟩ = decVal (toString w3).toList from
      Net.octet_value_mk (toString w3).toList 3 (Net.toString_ne_nil hw3)]
    exact (Net.decRepr_roundtrip w3 (by omega)).1
  unfold Net.genVals at hgv
  by_cases hcnt : st.octets.total_nonzero_octet ≤ 1
  · rw [if_pos hcnt] at hgv
    simp only [List.cons.injEq, and_true] at hgv
    refine ⟨fun habs => absurd hcnt (by omega), fun _ => by rw [hv0, ← hgv.1], ?_, ?_⟩
    · intro i h1 h3
      have hi : i = 1 ∨ i = 2 ∨ i = 3 := by omega
      rcases hi with rfl | rfl | rfl
      · rw [hv1, ← hgv.2.1]
      · rw [hv2, ← hgv.2.2.1]
      · rw [hv3, ← hgv.2.2.2]
    · intro v r hv hle
      exact Net.pickedValue_ne r hv hle
  · rw [if_neg hcnt] at hgv
    simp only [List.cons.injEq, and_true] at hgv
    refine ⟨fun _ => by rw [hv0, ← hgv.1], fun habs => absurd habs hcnt, ?_, ?_⟩
    · intro i h1 h3
      have hi : i = 1 ∨ i = 2 ∨ i = 3 := by omega
      rcases hi with rfl | rfl | rfl
      · rw [hv1, ← hgv.2.1]
      · rw [hv2, ← hgv.2.2.1]
      · rw [hv3, ← hgv.2.2.2]
    · intro v r hv hle
      exact Net.pickedValue_ne r hv hle

/-- Witness for C5 (amended) at `192.168.0.1` with a concrete draw. -/
theorem C5_amended_regeneration_witness :
    (2 ≤ (Net.ipv4FromStringD "192.168.0.1").octets.total_nonzero_octet →
      ((Net.IPv4generate_new (Net.ipv4FromStringD "192.168.0.1") [] (fun _ => 3)).octets.get 0).value =
        ((Net.ipv4FromStringD "192.168.0.1").octets.get 0).value) ∧
    ((Net.ipv4FromStringD "192.168.0.1").octets.total_nonzero_octet ≤ 1 →
      ((Net.IPv4generate_new (Net.ipv4FromStringD "192.168.0.1") [] (fun _ => 3)).octets.get 0).value =
        Net.pickedValue ((Net.ipv4FromStringD "192.168.0.1").octets.get 0).value 3) ∧
    (∀ i, 1 ≤ i → i ≤ 3 →
      ((Net.IPv4generate_new (Net.ipv4FromStringD "192.168.0.1") [] (fun _ => 3)).octets.get i).value =
        Net.pickedValue ((Net.ipv4FromStringD "192.168.0.1").octets.get i).value 3) ∧
    (∀ v r, 0 < v → v ≤ 255 → Net.pickedValue v r ≠ v) :=
  C5_amended_regeneration "192.168.0.1" (Net.ipv4FromStringD "192.168.0.1")
    (by decide) (by decide) (fun _ => 3)

end RewordApp

namespace RewordApp

/-- **C3.**  Document-wide consistency of IPv4 regeneration.
(a) If the source list handed to the later parser's `generate_new`
contains an earlier IPv4 parser with the identical original address
value (`src` is the first such source, and its own generated parser
`src.newParser` is a four-octet IPv4 parser), the later parser's
resulting octets are synced to `src.newParser`: every octet value and
the rendered address agree with the earlier parser's new address.
(b) Without an identical-valued source, for each octet position 1–3, if
some source's original octet at the same position has the same value,
the new octet at that position is copied from the first such source's
generated parser. -/
theorem C3_repeated_address_consistency
    (t2 : String) (later : Net.IPv4State)
    (hpl : Net.ipv4FromString t2 = some later)
    (hnm : Net.is_valid_netmask later = false)
    (sources : List Net.IPv4Source) (rng : Nat → Nat) :
    (∀ src rest, (sources.filter (fun s => s.version = 4)).filter
          (fun s => s.st.value = later.value) = src :: rest →
      src.newParser.octets.octets.length = 4 →
      src.newParser.octets.netType = "ipv4" →
      (∀ i, i ≤ 3 → ((Net.IPv4generate_new later sources rng).octets.get i).value =
          (src.newParser.octets.get i).value) ∧
      (Net.IPv4generate_new later sources rng).octets.to_address =
        src.newParser.octets.to_address) ∧
    (∀ i, 1 ≤ i → i ≤ 3 →
      (sources.filter (fun s => s.version = 4)).filter
          (fun s => s.st.value = later.value) = [] →
      (sources.filter (fun s => s.version = 4)).isEmpty = false →
      ∀ m mrest, (sources.filter (fun s => s.version = 4)).filter
          (fun s => s.st.octets.contains_octet (later.octets.get i)) = m :: mrest →
      ((Net.IPv4generate_new later sources rng).octets.get i).value =
        (m.newParser.octets.get i).value) := by
  obtain ⟨w0, w1, w2, w3, hgv, hw0, hw1, hw2, hw3⟩ := Net.genVals_explicit hpl rng
  have hmkJ := Net.mkOctets_join4 hw0 hw1 hw2 hw3
  constructor
  · intro src rest hfil hlen4 hnt4
    rw [Net.IPv4generate_new_sync hpl hnm sources rng hfil]
    have hnewlen : (⟨Net.joinSep ['.'] ((Net.genVals later rng).map toString), later.subnet,
        Net.mkOctets (Net.joinSep ['.'] ((Net.genVals later rng).map toString)) "ipv4"⟩ :
        Net.IPv4State).octets.octets.length = 4 := by
      show (Net.mkOctets (Net.joinSep ['.'] ((Net.genVals later rng).map toString))
        "ipv4").octets.length = 4
      rw [hgv]
      simp only [List.map_cons, List.map_nil]
      rw [hmkJ]
      rfl
    have hvals := fun i hi => Net.sync_octets_get_value _ src.newParser hnewlen hlen4 i hi
    refine ⟨hvals, ?_⟩
    have hsl := Net.sync_octets_length _ src.newParser hnewlen hlen4
    apply Net.to_address_eq_of_values _ _ ?_ hnt4 hsl.1 hlen4 hvals
    rw [hsl.2]
    show (Net.mkOctets (Net.joinSep ['.'] ((Net.genVals later rng).map toString))
      "ipv4").netType = "ipv4"
    rw [hgv]
    simp only [List.map_cons, List.map_nil]
    rw [hmkJ]
  · intro i h1i h3i hnoid hbase m mrest hmfil
    obtain ⟨p0, p1, p2, p3, hq0, hq1, hq2, hq3, hoct, hq, hchars, hsub⟩ :=
      Net.ipv4FromString_explicit hpl
    have hpos : ∀ j, j ≤ 3 → (later.octets.get j).position = j := by
      intro j hj
      rw [hoct]
      have hj4 : j = 0 ∨ j = 1 ∨ j = 2 ∨ j = 3 := by omega
      rcases hj4 with rfl | rfl | rfl | rfl <;> rfl
    rw [Net.IPv4generate_new_fold hpl hnm sources rng hbase hnoid]
    rw [show List.range' 1 3 = [1, 2, 3] from rfl]
    simp only [List.foldl_cons, List.foldl_nil]
    set A0 : Net.IPv4State := ⟨Net.joinSep ['.'] ((Net.genVals later rng).map toString),
      later.subnet,
      Net.mkOctets (Net.joinSep ['.'] ((Net.genVals later rng).map toString)) "ipv4"⟩ with hA0
    have hA0len : A0.octets.octets.length = 4 := by
      rw [hA0]
      show (Net.mkOctets (Net.joinSep ['.'] ((Net.genVals later rng).map toString))
        "ipv4").octets.length = 4
      rw [hgv]
      simp only [List.map_cons, List.map_nil]
      rw [hmkJ]
      rfl
    have hi3 : i = 1 ∨ i = 2 ∨ i = 3 := by omega
    rcases hi3 with rfl | rfl | rfl
    · rw [hmfil]
      simp only
      cases hF2 : (sources.filter (fun s => s.version = 4)).filter
          (fun s => s.st.octets.contains_octet (later.octets.get 2)) with
      | nil =>
        simp only [hF2]
        cases hF3 : (sources.filter (fun s => s.version = 4)).filter
            (fun s => s.st.octets.contains_octet (later.octets.get 3)) with
        | nil =>
          simp only [hF3]
          show ((A0.octets.sync_by_position m.newParser.octets
            (later.octets.get 1).position).get 1).value = _
          rw [hpos 1 (by omega), Net.get_sync_by_position_self _ _ 1 (by omega)]
        | cons m3 r3 =>
          simp only [hF3]
          show (((A0.octets.sync_by_position m.newParser.octets
              (later.octets.get 1).position).sync_by_position m3.newParser.octets
              (later.octets.get 3).position).get 1).value = _
          rw [hpos 1 (by omega), hpos 3 (by omega),
            Net.get_sync_by_position_ne _ _ 3 1 (by omega),
            Net.get_sync_by_position_self _ _ 1 (by omega)]
      | cons m2 r2 =>
        simp only [hF2]
        cases hF3 : (sources.filter (fun s => s.version = 4)).filter
            (fun s => s.st.octets.contains_octet (later.octets.get 3)) with
        | nil =>
          simp only [hF3]
          show (((A0.octets.sync_by_position m.newParser.octets
              (later.octets.get 1).position).sync_by_position m2.newParser.octets
              (later.octets.get 2).position).get 1).value = _
          rw [hpos 1 (by omega), hpos 2 (by omega),
            Net.get_sync_by_position_ne _ _ 2 1 (by omega),
            Net.get_sync_by_position_self _ _ 1 (by omega)]
        | cons m3 r3 =>
          simp only [hF3]
          show ((((A0.octets.sync_by_position m.newParser.octets
              (later.octets.get 1).position).sync_by_position m2.newParser.octets
              (later.octets.get 2).position).sync_by_position m3.newParser.octets
              (later.octets.get 3).position).get 1).value = _
          rw [hpos 1 (by omega), hpos 2 (by omega), hpos 3 (by omega),
            Net.get_sync_by_position_ne _ _ 3 1 (by omega),
            Net.get_sync_by_position_ne _ _ 2 1 (by omega),
            Net.get_sync_by_position_self _ _ 1 (by omega)]
    · cases hF1 : (sources.filter (fun s => s.version = 4)).filter
          (fun s => s.st.octets.contains_octet (later.octets.get 1)) with
      | nil =>
        simp only [hF1]
        rw [hmfil]
        simp only
        cases hF3 : (sources.filter (fun s => s.version = 4)).filter
            (fun s => s.st.octets.contains_octet (later.octets.get 3)) with
        | nil =>
          simp only [hF3]
          show ((A0.octets.sync_by_position m.newParser.octets
            (later.octets.get 2).position).get 2).value = _
          rw [hpos 2 (by omega), Net.get_sync_by_position_self _ _ 2 (by omega)]
        | cons m3 r3 =>
          simp only [hF3]
          show (((A0.octets.sync_by_position m.newParser.octets
              (later.octets.get 2).position).sync_by_position m3.newParser.octets
              (later.octets.get 3).position).get 2).value = _
          rw [hpos 2 (by omega), hpos 3 (by omega),
            Net.get_sync_by_position_ne _ _ 3 2 (by omega),
            Net.get_sync_by_position_self _ _ 2 (by omega)]
      | cons m1 r1 =>
        simp only [hF1]
        rw [hmfil]
        simp only
        have hlen1 : (A0.octets.sync_by_position m1.newParser.octets
            (later.octets.get 1).position).octets.length = 4 := by
          rw [Net.sync_by_position_length]
          exact hA0len
        cases hF3 : (sources.filter (fun s => s.version = 4)).filter
            (fun s => s.st.octets.contains_octet (later.octets.get 3)) with
        | nil =>
          simp only [hF3]
          show (((A0.octets.sync_by_position m1.newParser.octets
              (later.octets.get 1).position).sync_by_position m.newParser.octets
              (later.octets.get 2).position).get 2).value = _
          rw [hpos 2 (by omega), Net.get_sync_by_position_self _ _ 2 (by omega)]
        | cons m3 r3 =>
          simp only [hF3]
          show ((((A0.octets.sync_by_position m1.newParser.octets
              (later.octets.get 1).position).sync_by_position m.newParser.octets
              (later.octets.get 2).position).sync_by_position m3.newParser.octets
              (later.octets.get 3).position).get 2).value = _
          rw [hpos 2 (by omega), hpos 3 (by omega),
            Net.get_sync_by_position_ne _ _ 3 2 (by omega),
            Net.get_sync_by_position_self _ _ 2 (by omega)]
    · cases hF1 : (sources.filter (fun s => s.version = 4)).filter
          (fun s => s.st.octets.contains_octet (later.octets.get 1)) with
      | nil =>
        simp only [hF1]
        cases hF2 : (sources.filter (fun s => s.version = 4)).filter
            (fun s => s.st.octets.contains_octet (later.octets.get 2)) with
        | nil =>
          simp only [hF2]
          rw [hmfil]
          simp only
          show ((A0.octets.sync_by_position m.newParser.octets
            (later.octets.get 3).position).get 3).value = _
          rw [hpos 3 (by omega), Net.get_sync_by_position_self _ _ 3 (by omega)]
        | cons m2 r2 =>
          simp only [hF2]
          rw [hmfil]
          simp only
          have hlen2 : (A0.octets.sync_by_position m2.newParser.octets
              (later.octets.get 2).position).octets.length = 4 := by
            rw [Net.sync_by_position_length]
            exact hA0len
          show (((A0.octets.sync_by_position m2.newParser.octets
              (later.octets.get 2).position).sync_by_position m.newParser.octets
              (later.octets.get 3).position).get 3).value = _
          rw [hpos 3 (by omega), Net.get_sync_by_position_self _ _ 3 (by omega)]
      | cons m1 r1 =>
        simp only [hF1]
        have hlen1 : (A0.octets.sync_by_position m1.newParser.octets
            (later.octets.get 1).position).octets.length = 4 := by
          rw [Net.sync_by_position_length]
          exact hA0len
        cases hF2 : (sources.filter (fun s => s.version = 4)).filter
            (fun s => s.st.octets.contains_octet (later.octets.get 2)) with
        | nil =>
          simp only [hF2]
          rw [hmfil]
          simp only
          show (((A0.octets.sync_by_position m1.newParser.octets
              (later.octets.get 1).position).sync_by_position m.newParser.octets
              (later.octets.get 3).position).get 3).value = _
          rw [hpos 3 (by omega), Net.get_sync_by_position_self _ _ 3 (by omega)]
        | cons m2 r2 =>
          simp only [hF2]
          rw [hmfil]
          simp only
          have hlen12 : ((A0.octets.sync_by_position m1.newParser.octets
              (later.octets.get 1).position).sync_by_position m2.newParser.octets
              (later.octets.get 2).position).octets.length = 4 := by
            rw [Net.sync_by_position_length, Net.sync_by_position_length]
            exact hA0len
          show ((((A0.octets.sync_by_position m1.newParser.octets
              (later.octets.get 1).position).sync_by_position m2.newParser.octets
              (later.octets.get 2).position).sync_by_position m.newParser.octets
              (later.octets.get 3).position).get 3).value = _
          rw [hpos 3 (by omega), Net.get_sync_by_position_self _ _ 3 (by omega)]

end RewordApp

namespace RewordApp

set_option maxRecDepth 100000 in
/-- Witness for C3 at concrete addresses: (a) a later parse of
`34.149.87.45` is synced to an identical-valued earlier source, so the
rendered addresses agree; (b) a later parse of `10.168.0.5` copies
octet 1 from an earlier source whose original `192.168.1.1` shares
value 168 at position 1. -/
theorem C3_repeated_address_consistency_witness :
    ((Net.IPv4generate_new (Net.ipv4FromStringD "34.149.87.45")
        [⟨4, Net.ipv4FromStringD "34.149.87.45",
          Net.IPv4generate_new (Net.ipv4FromStringD "34.149.87.45") [] (fun _ => 0)⟩]
        (fun _ => 1)).octets.to_address =
      (Net.IPv4generate_new (Net.ipv4FromStringD "34.149.87.45") []
        (fun _ => 0)).octets.to_address) ∧
    (((Net.IPv4generate_new (Net.ipv4FromStringD "10.168.0.5")
        [⟨4, Net.ipv4FromStringD "192.168.1.1",
          Net.IPv4generate_new (Net.ipv4FromStringD "192.168.1.1") [] (fun _ => 0)⟩]
        (fun _ => 1)).octets.get 1).value =
      ((Net.IPv4generate_new (Net.ipv4FromStringD "192.168.1.1") []
        (fun _ => 0)).octets.get 1).value) := by
  constructor
  · exact ((C3_repeated_address_consistency "34.149.87.45"
      (Net.ipv4FromStringD "34.149.87.45") (by decide) (by decide)
      [⟨4, Net.ipv4FromStringD "34.149.87.45",
        Net.IPv4generate_new (Net.ipv4FromStringD "34.149.87.45") [] (fun _ => 0)⟩]
      (fun _ => 1)).1
      ⟨4, Net.ipv4FromStringD "34.149.87.45",
        Net.IPv4generate_new (Net.ipv4FromStringD "34.149.87.45") [] (fun _ => 0)⟩
      [] (by decide) (by decide) (by decide)).2
  · exact (C3_repeated_address_consistency "10.168.0.5"
      (Net.ipv4FromStringD "10.168.0.5") (by decide) (by decide)
      [⟨4, Net.ipv4FromStringD "192.168.1.1",
        Net.IPv4generate_new (Net.ipv4FromStringD "192.168.1.1") [] (fun _ => 0)⟩]
      (fun _ => 1)).2 1 (by omega) (by omega) (by decide) (by decide)
      ⟨4, Net.ipv4FromStringD "192.168.1.1",
        Net.IPv4generate_new (Net.ipv4FromStringD "192.168.1.1") [] (fun _ => 0)⟩
      [] (by decide)

end RewordApp

namespace RewordApp

/-- **C10.**  A successfully parsed MAC address whose numeric value is
all-zero or the all-ones broadcast value is never randomized:
`generate_new` re-parses the unchanged original text, so the result is
the very same parser state, for every choice of the random rewriter. -/
theorem C10_special_mac_invariance (text : String) (st : Net.MACState)
    (hp : Net.mkMAC text = st) (hok : st.address ≠ "")
    (hv : st.value = 0 ∨ st.value = hexVal (List.replicate 12 'f'))
    (newAddr : String → String) :
    Net.MACgenerate_new st newAddr = st := by
  have hraw : st.raw_text = text := by
    rw [← hp]
    exact mkMAC_raw_text text
  unfold Net.MACgenerate_new
  rw [if_pos hok, if_pos hv, hraw, hp]

/-- Witness for C10 at the broadcast MAC (colon and dotted styles) and
the all-zero MAC. -/
theorem C10_special_mac_invariance_witness :
    (Net.MACgenerate_new (Net.mkMAC "ff:ff:ff:ff:ff:ff") (fun _ => "x") =
      Net.mkMAC "ff:ff:ff:ff:ff:ff") ∧
    (Net.MACgenerate_new (Net.mkMAC "00:00:00:00:00:00") (fun _ => "x") =
      Net.mkMAC "00:00:00:00:00:00") ∧
    (Net.MACgenerate_new (Net.mkMAC "fff.fff.fff.fff") (fun _ => "x") =
      Net.mkMAC "fff.fff.fff.fff") :=
  ⟨C10_special_mac_invariance "ff:ff:ff:ff:ff:ff" _ rfl (by decide) (by decide) _,
   C10_special_mac_invariance "00:00:00:00:00:00" _ rfl (by decide) (by decide) _,
   C10_special_mac_invariance "fff.fff.fff.fff" _ rfl (by decide) (by decide) _⟩

end RewordApp

namespace RewordApp

lemma string_eq_of_toList {s t : String} (h : s.toList = t.toList) : s = t := by
  have hs := mk_toList s
  have ht := mk_toList t
  rw [← hs, ← ht, h]

lemma findSome?_mem {α β : Type} {f : α → Option β} {b : β} :
    ∀ {l : List α}, l.findSome? f = some b → ∃ a, a ∈ l ∧ f a = some b := by
  intro l
  induction l with
  | nil => intro h; simp [List.findSome?] at h
  | cons x xs ih =>
    intro h
    rw [List.findSome?_cons] at h
    cases hx : f x with
    | some v =>
      simp only [hx] at h
      exact ⟨x, List.mem_cons_self x xs, by rw [hx]; exact h⟩
    | none =>
      simp only [hx] at h
      obtain ⟨a, ha, hfa⟩ := ih h
      exact ⟨a, List.mem_cons_of_mem x ha, hfa⟩

lemma matchParts_concat :
    ∀ (parts : List String) (l m rest : List Char),
      matchParts parts l = some (m, rest) → m ++ rest = l := by
  intro parts
  induction parts with
  | nil =>
    intro l m rest h
    simp only [matchParts, Option.some_inj, Prod.mk.injEq] at h
    rw [← h.1, ← h.2]
    rfl
  | cons p tail ih =>
    cases tail with
    | nil =>
      intro l m rest h
      unfold matchParts at h
      by_cases hp : p.toList.isPrefixOf l
      · rw [if_pos hp, Option.some_inj, Prod.mk.injEq] at h
        obtain ⟨t, rfl⟩ := List.isPrefixOf_iff_prefix.mp hp
        rw [← h.1, ← h.2, List.drop_left]
      · rw [if_neg hp] at h
        exact absurd h (by simp)
    | cons q ps =>
      intro l m rest h
      unfold matchParts at h
      by_cases hp : p.toList.isPrefixOf l
      · rw [if_pos hp] at h
        obtain ⟨n, _, hfn⟩ := findSome?_mem h
        obtain ⟨t, rfl⟩ := List.isPrefixOf_iff_prefix.mp hp
        rw [List.drop_left] at hfn
        cases hmp : matchParts (q :: ps) (t.drop n) with
        | none => rw [hmp] at hfn; exact absurd hfn (by simp)
        | some pr =>
          obtain ⟨m2, rest2⟩ := pr
          rw [hmp, Option.some_inj, Prod.mk.injEq] at hfn
          have hih := ih (t.drop n) m2 rest2 hmp
          rw [← hfn.1, ← hfn.2, List.append_assoc, List.append_assoc, hih,
            List.take_append_drop]
      · rw [if_neg hp] at h
        exact absurd h (by simp)

lemma searchParts_concat (parts : List String) :
    ∀ (l left m rest : List Char),
      searchParts parts l = some (left, m, rest) → left ++ m ++ rest = l := by
  intro l
  induction l with
  | nil =>
    intro left m rest h
    unfold searchParts at h
    cases hmp : matchParts parts [] with
    | none => rw [hmp] at h; exact absurd h (by simp)
    | some pr =>
      obtain ⟨m2, rest2⟩ := pr
      rw [hmp, Option.some_inj] at h
      have h1 : left = [] := congrArg (fun x => x.1) h.symm
      have h2 : m = m2 := congrArg (fun x => x.2.1) h.symm
      have h3 : rest = rest2 := congrArg (fun x => x.2.2) h.symm
      subst h1 h2 h3
      simpa using matchParts_concat parts [] m rest hmp
  | cons c l2 ih =>
    intro left m rest h
    unfold searchParts at h
    cases hmp : matchParts parts (c :: l2) with
    | some pr =>
      obtain ⟨m2, rest2⟩ := pr
      rw [hmp, Option.some_inj] at h
      have h1 : left = [] := congrArg (fun x => x.1) h.symm
      have h2 : m = m2 := congrArg (fun x => x.2.1) h.symm
      have h3 : rest = rest2 := congrArg (fun x => x.2.2) h.symm
      subst h1 h2 h3
      simpa using matchParts_concat parts (c :: l2) m rest hmp
    | none =>
      rw [hmp] at h
      cases hs : searchParts parts l2 with
      | none => rw [hs] at h; exact absurd h (by simp)
      | some tr =>
        obtain ⟨left2, m2, rest2⟩ := tr
        rw [hs, Option.some_inj] at h
        have h1 : left = c :: left2 := congrArg (fun x => x.1) h.symm
        have h2 : m = m2 := congrArg (fun x => x.2.1) h.symm
        have h3 : rest = rest2 := congrArg (fun x => x.2.2) h.symm
        subst h1 h2 h3
        have := ih left2 m rest hs
        simp only [List.cons_append]
        rw [this]

lemma extract_segments_concat (line : String) (parts : List String) :
    (extract_segments line parts).1.toList ++ (extract_segments line parts).2.1.toList ++
      (extract_segments line parts).2.2.toList = line.toList := by
  unfold extract_segments
  cases hs : searchParts parts line.toList with
  | none => simp
  | some tr =>
    obtain ⟨left, m, rest⟩ := tr
    simp only [toList_mk]
    exact searchParts_concat parts line.toList left m rest hs

lemma splitByMatchesL_join : ∀ (l : List Char), (splitByMatchesL l).join = l := by
  intro l
  induction l with
  | nil => rfl
  | cons c cs ih =>
    unfold splitByMatchesL
    cases hs : splitByMatchesL cs with
    | nil =>
      simp only [List.join]
      rw [hs] at ih
      simp at ih
      simp [ih]
    | cons r rest =>
      cases r with
      | nil =>
        simp only [List.join_cons]
        rw [hs] at ih
        simp only [List.join_cons, List.nil_append] at ih
        simp [ih]
      | cons d r2 =>
        rw [hs] at ih
        by_cases hpc : pyIsSpace c = pyIsSpace d
        · simp only [hpc, if_true, List.join_cons] at ih ⊢
          simp [ih]
        · simp only [hpc, if_false, List.join_cons] at ih ⊢
          simp [ih]

lemma splitByMatchesL_nil_iff : ∀ (l : List Char), splitByMatchesL l = [] ↔ l = [] := by
  intro l
  cases l with
  | nil => simp [splitByMatchesL]
  | cons c cs =>
    simp only [splitByMatchesL]
    constructor
    · intro h
      cases hs : splitByMatchesL cs with
      | nil => rw [hs] at h; simp at h
      | cons r rest =>
        rw [hs] at h
        cases r with
        | nil => simp at h
        | cons d r2 =>
          by_cases hpc : pyIsSpace c = pyIsSpace d
          · simp only [hpc, if_true] at h; simp at h
          · simp only [hpc, if_false] at h; simp at h
    · intro h; exact absurd h (by simp)

lemma foldl_append_toList :
    ∀ (L : List String) (s : String),
      (L.foldl (fun r t => r ++ t) s).toList = s.toList ++ (L.map String.toList).join := by
  intro L
  induction L with
  | nil => intro s; simp
  | cons x xs ih =>
    intro s
    rw [List.foldl_cons, ih]
    have hax : (s ++ x).toList = s.toList ++ x.toList := rfl
    rw [hax]
    simp [List.append_assoc]

lemma join_strings_toList (L : List String) :
    (String.join L).toList = (L.map String.toList).join := by
  have := foldl_append_toList L ""
  simpa [String.join] using this

lemma split_by_matches_join (s : String) :
    ((split_by_matches s).map String.toList).join = s.toList := by
  unfold split_by_matches
  rw [List.map_map]
  have : (String.toList ∘ String.mk) = id := by
    funext l
    simp [toList_mk]
  rw [this, List.map_id]
  exact splitByMatchesL_join s.toList

end RewordApp

namespace RewordApp

lemma tokenize_join (content : String) (dtRule : Option DTOracle)
    (h : is_nonempty content = true) :
    String.join (tokenize content dtRule) = content := by
  apply string_eq_of_toList
  rw [join_strings_toList]
  unfold tokenize
  rw [if_neg (by simp [h])]
  cases dtRule with
  | none => exact split_by_matches_join content
  | some dt =>
    cases hE : extract_segments content (dt.segs (extract_non_whitespace content)) with
    | mk left rr =>
      cases rr with
      | mk dt_text right =>
        have hcat := extract_segments_concat content (dt.segs (extract_non_whitespace content))
        rw [hE] at hcat
        dsimp only
        rw [hE]
        dsimp only at hcat ⊢
        by_cases hm : dt.matched dt_text = true
        · rw [if_pos hm]
          have hL : ((if left ≠ "" then split_by_matches left else []).map String.toList).join =
              left.toList := by
            by_cases hl : left = ""
            · rw [if_neg (by simp [hl]), hl]
              rfl
            · rw [if_pos hl]
              exact split_by_matches_join left
          have hR : ((if right ≠ "" then split_by_matches right else []).map String.toList).join =
              right.toList := by
            by_cases hr : right = ""
            · rw [if_neg (by simp [hr]), hr]
              rfl
            · rw [if_pos hr]
              exact split_by_matches_join right
          rw [List.map_append, List.map_append]
          simp only [List.join_append, List.join_cons, List.join_nil, List.map_cons,
            List.map_nil, List.append_nil, hL, hR]
          simpa [List.append_assoc] using hcat
        · rw [if_neg hm]
          exact split_by_matches_join content

lemma tokenize_ne_nil (content : String) (dtRule : Option DTOracle)
    (h : is_nonempty content = true) :
    tokenize content dtRule ≠ [] := by
  have hcne : content.toList ≠ [] := by
    intro hc
    unfold is_nonempty at h
    rw [hc] at h
    simp at h
  have hsplit : split_by_matches content ≠ [] := by
    unfold split_by_matches
    intro hcontra
    rw [List.map_eq_nil] at hcontra
    exact hcne ((splitByMatchesL_nil_iff content.toList).mp hcontra)
  unfold tokenize
  rw [if_neg (by simp [h])]
  cases dtRule with
  | none => exact hsplit
  | some dt =>
    cases hE : extract_segments content (dt.segs (extract_non_whitespace content)) with
    | mk left rr =>
      cases rr with
      | mk dt_text right =>
        dsimp only
        rw [hE]
        dsimp only
        by_cases hm : dt.matched dt_text = true
        · rw [if_pos hm]
          simp
        · rw [if_neg hm]
          exact hsplit

lemma join_length (L : List String) : (String.join L).length = (L.map String.length).sum := by
  have h1 : (String.join L).length = (String.join L).toList.length := rfl
  rw [h1, join_strings_toList, List.length_join, List.map_map]
  rfl

lemma sum_length_mapIdx :
    ∀ (toks : List String) (f : Nat → String → String),
      (∀ i s, (f i s).length = s.length) →
      ((toks.mapIdx f).map String.length).sum = (toks.map String.length).sum := by
  intro toks
  induction toks with
  | nil => intro f _; rfl
  | cons x xs ih =>
    intro f hf
    rw [List.mapIdx_cons]
    simp only [List.map_cons, List.sum_cons]
    rw [hf 0 x, ih (fun i s => f (i + 1) s) (fun i s => hf (i + 1) s)]

end RewordApp

namespace RewordApp

/-- **C8 counterexample.**  A whitespace-only line is not tokenized
losslessly: `Line.is_nonempty` is false for `" "`, so `tokenize`
returns no tokens and the concatenation of the raw spans is `""`, not
the line content. -/
theorem C8_counterexample :
    tokenize " " none = [] ∧ String.join (tokenize " " none) ≠ " " := by
  constructor
  · decide
  · intro h
    have : (" " : String) = "" := by
      rw [← h]
      decide
    exact absurd this (by decide)

/-- **C8 (amended).**  For every line whose content is not
whitespace-only, tokenization is lossless on both paths: the raw spans
returned by `tokenize` concatenate back to the content exactly, on the
plain whitespace-split path and on the datetime path (left remainder,
datetime span, right remainder), for every datetime rule behaviour. -/
theorem C8_amended_lossless (content : String) (dtRule : Option DTOracle)
    (h : is_nonempty content = true) :
    String.join (tokenize content dtRule) = content :=
  tokenize_join content dtRule h

/-- Witness for C8 (amended) on the datetime path: a rule that selects
the span `12:30` of `a 12:30 b`. -/
theorem C8_amended_lossless_witness :
    is_nonempty "a 12:30 b" = true ∧
    String.join (tokenize "a 12:30 b"
      (some ⟨fun _ => ["12:30"], fun _ => true⟩)) = "a 12:30 b" :=
  ⟨by decide,
   C8_amended_lossless "a 12:30 b" (some ⟨fun _ => ["12:30"], fun _ => true⟩) (by decide)⟩

/-- **C1 counterexample.**  The spec claims `len(rewrite(L)) == len(L)`
for every line; the whitespace-only line `" "` rewrites to `""` (length 0
instead of 1) even under the identity token rewriter, which preserves
every token's length. -/
theorem C1_counterexample :
    (line_rewritten " " none (fun _ s => s)).length ≠ (" " : String).length := by
  have ht : tokenize " " none = [] := by decide
  show (if (tokenize " " none).isEmpty then "" else
    String.join ((tokenize " " none).mapIdx (fun _ s => s))).length ≠ (" " : String).length
  rw [ht]
  show ("" : String).length ≠ (" " : String).length
  decide

/-- **C1 (amended).**  A whitespace-only line rewrites to the empty
string; for every other line, if every token's rewritten text has the
same length as its raw span, the rewritten line has exactly the length
of the original content — on both tokenization paths. -/
theorem C1_amended_length (content : String) (dtRule : Option DTOracle)
    (rw : Nat → String → String) (hlen : ∀ i s, (rw i s).length = s.length) :
    (is_nonempty content = false → line_rewritten content dtRule rw = "") ∧
    (is_nonempty content = true →
      (line_rewritten content dtRule rw).length = content.length) := by
  constructor
  · intro h0
    show (if (tokenize content dtRule).isEmpty then "" else
      String.join ((tokenize content dtRule).mapIdx rw)) = ""
    have ht : tokenize content dtRule = [] := by
      unfold tokenize
      rw [if_pos h0]
    rw [ht]
    rfl
  · intro h1
    have hne := tokenize_ne_nil content dtRule h1
    have hj := tokenize_join content dtRule h1
    have hb : (tokenize content dtRule).isEmpty = false := by
      cases htk : tokenize content dtRule with
      | nil => exact absurd htk hne
      | cons a l => rfl
    show (if (tokenize content dtRule).isEmpty then "" else
      String.join ((tokenize content dtRule).mapIdx rw)).length = content.length
    rw [hb]
    simp only [Bool.false_eq_true, if_false]
    rw [join_length, sum_length_mapIdx (tokenize content dtRule) rw hlen, ← join_length, hj]

/-- Witness for C1 (amended) with the identity rewriter on a line with
several tokens. -/
theorem C1_amended_length_witness :
    is_nonempty "ab 12" = true ∧
    (line_rewritten "ab 12" none (fun _ s => s)).length = ("ab 12" : String).length :=
  ⟨by decide,
   (C1_amended_length "ab 12" none (fun _ s => s) (fun _ _ => rfl)).2 (by decide)⟩

end RewordApp

namespace RewordApp

lemma getD_map_class (m : Char → Option Char)
    (hm : ∀ c c2, m c = some c2 → charClass c2 = charClass c) :
    ∀ (l : List Char) (i : Nat),
      charClass ((l.map (fun c => (m c).getD c)).getD i ' ') = charClass (l.getD i ' ') := by
  intro l
  induction l with
  | nil => intro i; rfl
  | cons c cs ih =>
    intro i
    cases i with
    | zero =>
      show charClass ((m c).getD c) = charClass c
      cases hc : m c with
      | none => rfl
      | some c2 => exact hm c c2 hc
    | succ j => exact ih j

lemma binPad_length : ∀ (w v : Nat), (binPad w v).length = w := by
  intro w
  induction w with
  | zero => intro v; rfl
  | succ k ih =>
    intro v
    unfold binPad
    rw [List.length_append, ih]
    simp

lemma binPad_mem : ∀ (w v : Nat), ∀ c ∈ binPad w v, c = '0' ∨ c = '1' := by
  intro w
  induction w with
  | zero => intro v c hc; simp [binPad] at hc
  | succ k ih =>
    intro v c hc
    unfold binPad at hc
    rw [List.mem_append] at hc
    cases hc with
    | inl h => exact ih (v / 2) c h
    | inr h =>
      simp only [List.mem_singleton] at h
      by_cases hv : v % 2 = 1
      · rw [hv] at h
        simp at h
        right
        exact h
      · rw [if_neg hv] at h
        left
        exact h

lemma charClass_of_01 {c : Char} (h : c = '0' ∨ c = '1') : charClass c = CClass.digit := by
  rcases h with rfl | rfl <;> decide

end RewordApp

namespace RewordApp

/-- **C2 counterexample.**  `new_fperm` does not preserve character
classes: under the cyclic-successor `file_permission` table (a valid
derangement of the digits 0–7, hence a reachable shuffle), the
permission string `-rwxrwxrwx` rewrites to `----------`, turning the
lowercase letter at index 1 into punctuation. -/
theorem C2_counterexample :
    new_fperm "-rwxrwxrwx" fpCycle (fun _ => none) = "----------" ∧
    charClass (("-rwxrwxrwx" : String).toList.getD 1 ' ') ≠
      charClass ((new_fperm "-rwxrwxrwx" fpCycle (fun _ => none)).toList.getD 1 ' ') := by
  constructor
  · decide
  · decide

/-- **C2 (amended).**  The generic character-substitution engine
`apply_mapping` preserves the length and the per-index character class
of its input on every branch, whenever the substitution tables map each
character to one of the same class (which the `build_char_map` tables
do, as each charset is shuffled within itself): hex literals keep their
prefix and remap digits to digits, binary literals are re-drawn inside
the digit class, octal and generic text are mapped pointwise. -/
theorem C2_amended_class_preservation (text : String) (mapping octalM : Char → Option Char)
    (binDraw : Nat → Nat)
    (hm : ∀ c c2, mapping c = some c2 → charClass c2 = charClass c)
    (ho : ∀ c c2, octalM c = some c2 → charClass c2 = charClass c) :
    (apply_mapping text mapping octalM binDraw).length = text.length ∧
    ∀ i, charClass ((apply_mapping text mapping octalM binDraw).toList.getD i ' ') =
      charClass (text.toList.getD i ' ') := by
  have hl : text.length = text.toList.length := rfl
  unfold apply_mapping
  split
  case h_1 x rest heq =>
    rw [hl, heq]
    split_ifs with h1 h2 h3 h4
    · refine ⟨by simp, ?_⟩
      intro i
      cases i with
      | zero => rfl
      | succ j =>
        cases j with
        | zero => rfl
        | succ k => exact getD_map_class mapping hm rest k
    · refine ⟨by simp [binPad_length], ?_⟩
      intro i
      cases i with
      | zero => rfl
      | succ j =>
        cases j with
        | zero => rfl
        | succ k =>
          show charClass ((binPad rest.length
            (binDraw rest.length % 2 ^ rest.length)).getD k ' ') = charClass (rest.getD k ' ')
          simp only [Bool.and_eq_true] at h2
          by_cases hk : k < rest.length
          · have hkb : k < (binPad rest.length
                (binDraw rest.length % 2 ^ rest.length)).length := by
              rw [binPad_length]
              exact hk
            rw [List.getD_eq_getElem _ _ hkb, List.getD_eq_getElem _ _ hk]
            have hb := binPad_mem rest.length (binDraw rest.length % 2 ^ rest.length)
              _ (List.getElem_mem hkb)
            have hr : rest[k] = '0' ∨ rest[k] = '1' := by
              have := List.all_eq_true.mp h2.2 _ (List.getElem_mem hk)
              simpa using this
            rw [charClass_of_01 hb, charClass_of_01 hr]
          · have hkb : ¬k < (binPad rest.length
                (binDraw rest.length % 2 ^ rest.length)).length := by
              rw [binPad_length]
              exact hk
            rw [List.getD_eq_default _ _ (by omega), List.getD_eq_default _ _ (by omega)]
    · refine ⟨by simp, ?_⟩
      intro i
      cases i with
      | zero => rfl
      | succ j =>
        cases j with
        | zero => rfl
        | succ k => exact getD_map_class octalM ho rest k
    · refine ⟨by simp, ?_⟩
      intro i
      cases i with
      | zero => rfl
      | succ j => exact getD_map_class octalM ho (x :: rest) j
    · refine ⟨by simp, ?_⟩
      intro i
      exact getD_map_class mapping hm ('0' :: x :: rest) i
  case h_2 l hne =>
    rw [hl]
    refine ⟨by simp, ?_⟩
    intro i
    exact getD_map_class mapping hm text.toList i

/-- Witness for C2 (amended) with a small class-preserving table
(`a ↦ b`) on the text `abc`. -/
theorem C2_amended_class_preservation_witness :
    (apply_mapping "abc" (fun c => if c = 'a' then some 'b' else none) (fun _ => none)
      (fun _ => 0)).length = ("abc" : String).length ∧
    charClass ((apply_mapping "abc" (fun c => if c = 'a' then some 'b' else none)
      (fun _ => none) (fun _ => 0)).toList.getD 0 ' ') =
      charClass (("abc" : String).toList.getD 0 ' ') := by
  have h := C2_amended_class_preservation "abc"
    (fun c => if c = 'a' then some 'b' else none) (fun _ => none) (fun _ => 0)
    (by
      intro c c2 hc
      dsimp only at hc
      by_cases hca : c = 'a'
      · rw [if_pos hca, Option.some_inj] at hc
        rw [hca, ← hc]
        decide
      · rw [if_neg hca] at hc
        exact absurd hc (by simp))
    (by intro c c2 hc; exact absurd hc (by simp))
  exact ⟨h.1, h.2 0⟩

end RewordApp

namespace RewordApp

lemma rstrip_append (p : Char → Bool) (l : List Char) :
    (l.reverse.dropWhile p).reverse ++ l.drop ((l.reverse.dropWhile p).reverse.length) = l := by
  have hl : (l.reverse.dropWhile p).reverse ++ (l.reverse.takeWhile p).reverse = l := by
    have h2 := congrArg List.reverse (List.takeWhile_append_dropWhile (p := p) (l := l.reverse))
    rw [List.reverse_append, List.reverse_reverse] at h2
    exact h2
  set A := (l.reverse.dropWhile p).reverse
  set B := (l.reverse.takeWhile p).reverse
  conv_lhs => rw [← hl]
  rw [List.drop_left]
  exact hl

lemma content_newline (raw : String) : lineContent raw ++ lineNewline raw = raw := by
  apply string_eq_of_toList
  have hx : (lineContent raw ++ lineNewline raw).toList =
      (lineContent raw).toList ++ (lineNewline raw).toList := rfl
  rw [hx]
  unfold lineNewline lineContent
  simp only [toList_mk]
  exact rstrip_append _ raw.toList

lemma getD_mapIdx {α β : Type} (dβ : β) :
    ∀ (l : List α) (f : Nat → α → β) (i : Nat) (dα : α), i < l.length →
      (l.mapIdx f).getD i dβ = f i (l.getD i dα) := by
  intro l
  induction l with
  | nil => intro f i dα h; simp at h
  | cons a as ih =>
    intro f i dα h
    rw [List.mapIdx_cons]
    cases i with
    | zero => rfl
    | succ j =>
      show (as.mapIdx fun k b => f (k + 1) b).getD j dβ = f (j + 1) (as.getD j dα)
      exact ih (fun k b => f (k + 1) b) j dα (by simpa using h)

end RewordApp

namespace RewordApp

/-- **C7.**  Lines marked unchanged are emitted byte-identically:
(1) for every marking, every datetime rule and every token rewriter, the
builder part of a line whose flag is set is exactly its raw text
(content and terminator);
(2) `unchanged_lines: "2"` parses to the single 0-based index 1;
(3) applying that rule to a five-line document marks exactly 0-based
line 1, for every text-pattern matcher. -/
theorem C7_unchanged_line_identity :
    (∀ (linesFlags : List (String × Bool)) (dtRule : Option DTOracle)
        (rw : Nat → Nat → String → String) (i : Nat),
        i < linesFlags.length → (linesFlags.getD i ("", false)).2 = true →
        (builderParts linesFlags dtRule rw).getD i "" = (linesFlags.getD i ("", false)).1) ∧
    mkUnchangedRule id (Yaml.str "2") = .ok ⟨[1], [], [], [], true⟩ ∧
    (∀ psearch, markedLines ["a 1\n", "b 2\n", "c 3\n", "d 4\n", "e 5\n"]
        (some ⟨[1], [], [], [], true⟩) psearch =
      [("a 1\n", false), ("b 2\n", true), ("c 3\n", false), ("d 4\n", false),
        ("e 5\n", false)]) := by
  refine ⟨?_, by rfl, ?_⟩
  · intro linesFlags dtRule rw i hi hflag
    unfold builderParts
    rw [getD_mapIdx "" linesFlags _ i ("", false) hi, hflag]
    simp only [if_true]
    exact content_newline _
  · intro psearch
    rfl

/-- Witness for C7 part (1) at a concrete two-line document whose first
line is marked unchanged. -/
theorem C7_unchanged_line_identity_witness :
    (builderParts [("hello\n", true), ("x 1\n", false)] none
      (fun _ _ s => s)).getD 0 "" = "hello\n" :=
  C7_unchanged_line_identity.1 [("hello\n", true), ("x 1\n", false)] none
    (fun _ _ s => s) 0 (by decide) (by decide)

/-- **C9 counterexample.**  Malformed rule values are silently
downgraded, not raised as typed errors: a float `unchanged_lines`
(wrong type) yields no rule and no error, and a falsy
`rewrite_datetime` of wrong type (`0`) is likewise silently ignored. -/
theorem C9_counterexample :
    get_unchanged_lines_rule id [("unchanged_lines", Yaml.float false "2.5")] = .ok none ∧
    get_datetime_token_rule [("rewrite_datetime", Yaml.int 0)] = .ok none := by
  constructor
  · rfl
  · rfl

lemma dtParseList_error_shape (l : List Yaml) (e : RuleError)
    (h : dtParseList l = .error e) : ∃ msg, e = .dateTimeRuleError msg := by
  unfold dtParseList at h
  dsimp only at h
  split_ifs at h <;>
    first
    | (simp only [Except.error.injEq] at h
       exact ⟨_, h.symm⟩)
    | exact absurd h (by simp)

/-- **C9 (amended).**  The typed-error behaviour that does hold:
(1) a non-mapping rules root raises `InvalidRulesFormat`;
(2) a truthy `rewrite_datetime` that is neither a string nor a list
raises `DateTimeRuleError`;
(3) a nonempty `rewrite_datetime` string the format regex rejects
raises `DateTimeRuleError`;
(4) a malformed nonempty `rewrite_datetime` list (wrong length or
elements failing the flag/index/width validation) raises the
`DateTimeRuleError` produced by the list parser;
(5) a falsy `rewrite_datetime` is silently ignored;
(6) an `unchanged_lines` of float, mapping or null type is silently
ignored;
(7) an `unchanged_lines` list rejected by `_validate_ranges` propagates
the typed `UnchangedLinesError`. -/
theorem C9_amended_typed_errors :
    (∀ data : Yaml, (match data with | Yaml.map _ => False | _ => True) →
      ∃ msg, load_rules data = .error (.invalidRulesFormat msg)) ∧
    (∀ (rules : List (String × Yaml)) (v : Yaml),
      (rules.lookup "rewrite_datetime").getD .null = v → yamlTruthy v = true →
      (match v with | Yaml.str _ => False | Yaml.list _ => False | _ => True) →
      ∃ msg, get_datetime_token_rule rules = .error (.dateTimeRuleError msg)) ∧
    (∀ (rules : List (String × Yaml)) (s : String),
      (rules.lookup "rewrite_datetime").getD .null = Yaml.str s → s ≠ "" →
      dtStringMatch (strLower (pyStrip s)).toList = none →
      ∃ msg, get_datetime_token_rule rules = .error (.dateTimeRuleError msg)) ∧
    (∀ (rules : List (String × Yaml)) (l : List Yaml) (e : RuleError),
      (rules.lookup "rewrite_datetime").getD .null = Yaml.list l → l ≠ [] →
      dtParseList l = .error e →
      get_datetime_token_rule rules = .error e ∧ ∃ msg, e = .dateTimeRuleError msg) ∧
    (∀ (rules : List (String × Yaml)) (v : Yaml),
      (rules.lookup "rewrite_datetime").getD .null = v → yamlTruthy v = false →
      get_datetime_token_rule rules = .ok none) ∧
    (∀ (rules : List (String × Yaml)) (v : Yaml),
      (rules.lookup "unchanged_lines").getD .null = v →
      (match v with
       | Yaml.float _ _ => True
       | Yaml.map _ => True
       | Yaml.null => True
       | _ => False) →
      ∀ t2p, get_unchanged_lines_rule t2p rules = .ok none) ∧
    (∀ (rules : List (String × Yaml)) (l : List Yaml) (e : RuleError),
      (rules.lookup "unchanged_lines").getD .null = Yaml.list l →
      validate_ranges (Yaml.list l) = .error e →
      ∀ t2p, get_unchanged_lines_rule t2p rules = .error e) := by
  refine ⟨?_, ?_, ?_, ?_, ?_, ?_, ?_⟩
  · intro data hshape
    cases data with
    | map entries => exact absurd hshape (by simp)
    | str s => exact ⟨_, rfl⟩
    | int n => exact ⟨_, rfl⟩
    | bool b => exact ⟨_, rfl⟩
    | float z r => exact ⟨_, rfl⟩
    | list items => exact ⟨_, rfl⟩
    | null => exact ⟨_, rfl⟩
  · intro rules v hlook htru hshape
    unfold get_datetime_token_rule
    rw [hlook, if_pos htru]
    cases v with
    | str s => exact absurd hshape (by simp)
    | list items => exact absurd hshape (by simp)
    | int n => exact ⟨_, rfl⟩
    | bool b => exact ⟨_, rfl⟩
    | float z r => exact ⟨_, rfl⟩
    | map entries => exact ⟨_, rfl⟩
    | null => exact ⟨_, rfl⟩
  · intro rules str0 hlook hne hmatch
    have htru : yamlTruthy (Yaml.str str0) = true := by
      simp [yamlTruthy, hne]
    unfold get_datetime_token_rule
    rw [hlook, if_pos htru]
    refine ⟨"rewrite_datetime must be 'flag, index, width'", ?_⟩
    show (mkDateTimeRule (Yaml.str str0)).map some = _
    unfold mkDateTimeRule
    dsimp only
    rw [hmatch]
    rfl
  · intro rules l e hlook hne herr
    have htru : yamlTruthy (Yaml.list l) = true := by
      cases l with
      | nil => exact absurd rfl hne
      | cons a t => rfl
    refine ⟨?_, dtParseList_error_shape l e herr⟩
    unfold get_datetime_token_rule
    rw [hlook, if_pos htru]
    show (mkDateTimeRule (Yaml.list l)).map some = _
    unfold mkDateTimeRule
    dsimp only
    rw [herr]
    rfl
  · intro rules v hlook htru
    unfold get_datetime_token_rule
    rw [hlook, if_neg (by simp [htru])]
  · intro rules v hlook hshape t2p
    unfold get_unchanged_lines_rule
    rw [hlook]
    cases v with
    | float z r => rfl
    | map entries => rfl
    | null => rfl
    | str s => exact absurd hshape (by simp)
    | int n => exact absurd hshape (by simp)
    | bool b => exact absurd hshape (by simp)
    | list items => exact absurd hshape (by simp)
  · intro rules l e hlook hval t2p
    unfold get_unchanged_lines_rule
    rw [hlook]
    show (mkUnchangedRule t2p (Yaml.list l)).map some = .error e
    unfold mkUnchangedRule
    dsimp only
    rw [hval]
    rfl

/-- Witness for C9 (amended): a list root, a boolean
`rewrite_datetime`, a malformed `rewrite_datetime` string (`hello`), a
malformed `rewrite_datetime` list (`[1]`), a falsy `rewrite_datetime`,
a float `unchanged_lines`, and a malformed `unchanged_lines` pair
list. -/
theorem C9_amended_typed_errors_witness :
    (∃ msg, load_rules (Yaml.list []) = .error (.invalidRulesFormat msg)) ∧
    (∃ msg, get_datetime_token_rule [("rewrite_datetime", Yaml.bool true)] =
      .error (.dateTimeRuleError msg)) ∧
    (∃ msg, get_datetime_token_rule [("rewrite_datetime", Yaml.str "hello")] =
      .error (.dateTimeRuleError msg)) ∧
    get_datetime_token_rule [("rewrite_datetime", Yaml.list [Yaml.int 1])] =
      .error (.dateTimeRuleError
        "rewrite_datetime must be [true|false|yes|no, index, width]") ∧
    get_datetime_token_rule [("rewrite_datetime", Yaml.str "")] = .ok none ∧
    get_unchanged_lines_rule id [("unchanged_lines", Yaml.map [])] = .ok none ∧
    get_unchanged_lines_rule id [("unchanged_lines", Yaml.list [Yaml.map []])] =
      .error (.unchangedLinesError
        "Invalid value for unchanged_lines: expected [start, stop] pairs") :=
  ⟨C9_amended_typed_errors.1 (Yaml.list []) (by simp),
   C9_amended_typed_errors.2.1 [("rewrite_datetime", Yaml.bool true)] (Yaml.bool true)
     rfl rfl (by simp),
   C9_amended_typed_errors.2.2.1 [("rewrite_datetime", Yaml.str "hello")] "hello"
     rfl (by decide) rfl,
   (C9_amended_typed_errors.2.2.2.1 [("rewrite_datetime", Yaml.list [Yaml.int 1])]
     [Yaml.int 1]
     (.dateTimeRuleError "rewrite_datetime must be [true|false|yes|no, index, width]")
     rfl (by simp) rfl).1,
   C9_amended_typed_errors.2.2.2.2.1 [("rewrite_datetime", Yaml.str "")] (Yaml.str "")
     rfl (by decide),
   C9_amended_typed_errors.2.2.2.2.2.1 [("unchanged_lines", Yaml.map [])] (Yaml.map [])
     rfl (by simp) id,
   C9_amended_typed_errors.2.2.2.2.2.2 [("unchanged_lines", Yaml.list [Yaml.map []])]
     [Yaml.map []] _ rfl rfl id⟩

end RewordApp

namespace RewordApp

lemma randint_le (a b r : Nat) (h : a ≤ b) : randint a b r ≤ b := by
  unfold randint
  have := Nat.mod_lt r (y := b - a + 1) (by omega)
  omega

lemma randint_ge (a b r : Nat) : a ≤ randint a b r := by
  unfold randint
  omega

lemma random_hour_le (base r : Nat) : random_hour base r ≤ 23 := by
  unfold random_hour
  split_ifs with h1 h2
  · have := randint_le 0 9 r (by omega)
    omega
  · have := randint_le 10 12 r (by omega)
    omega
  · have := randint_le 10 23 r (by omega)
    omega

lemma rms_le (base r : Nat) : random_minute_or_second base r ≤ 59 := by
  unfold random_minute_or_second
  split_ifs with h1
  · have := randint_le 1 9 r (by omega)
    omega
  · have := randint_le 1 59 r (by omega)
    omega

lemma walkBack_spec (wm wd : Nat) :
    ∀ (n : Nat) (c : DTState),
      (walkBack wm wd n c).ordinal ≤ c.ordinal ∧
      (walkBack wm wd n c).hour = c.hour ∧
      (walkBack wm wd n c).minute = c.minute ∧
      (walkBack wm wd n c).second = c.second ∧
      (walkBack wm wd n c).microsecond = c.microsecond := by
  intro n
  induction n with
  | zero => intro c; exact ⟨le_refl _, rfl, rfl, rfl, rfl⟩
  | succ k ih =>
    intro c
    unfold walkBack
    dsimp only
    split_ifs with h
    · refine ⟨?_, rfl, rfl, rfl, rfl⟩
      show c.ordinal - 1 ≤ c.ordinal
      omega
    · obtain ⟨h1, h2, h3, h4, h5⟩ := ih { c with ordinal := c.ordinal - 1 }
      refine ⟨?_, h2, h3, h4, h5⟩
      have : ({ c with ordinal := c.ordinal - 1 } : DTState).ordinal = c.ordinal - 1 := rfl
      rw [this] at h1
      omega

end RewordApp

namespace RewordApp

/-- **C6.**  The randomized replacement instant is strictly earlier than
the parsed original, for every base datetime and every sequence of
draws: either the first candidate is accepted because it is already
earlier, or the date is reset to the base date and pushed back by at
least one day (and the 360-step width walk only goes further back).
Concretely, `Sat, 07 Feb 2026 12:57:36 GMT` parses under the RFC 1123
format, the literal-`GMT` branch derives the same format as output
format, and at a concrete draw the full rewrite pipeline (render plus
both width-reconciliation passes) produces `Thu, 01 Jan 2026 10:01:01
GMT`, which parses under that same format to a strictly earlier
instant. -/
theorem C6_datetime_strictly_earlier :
    (∀ (base : PyDateTime) (d : DTDraws),
      dtTimestamp (generate_random_datetime base d) < dtTimestamp (toState base)) ∧
    parseRFC1123 "Sat, 07 Feb 2026 12:57:36 GMT" = some ⟨2026, 2, 7, 12, 57, 36, 0⟩ ∧
    gmtOutputFormat "%a, %d %b %Y %H:%M:%S GMT" = some "%a, %d %b %Y %H:%M:%S GMT" ∧
    rewrittenRFC1123 "Sat, 07 Feb 2026 12:57:36 GMT" ⟨2026, 2, 7, 12, 57, 36, 0⟩
      ⟨0, 0, 0, 0, 0, 0, 0, 0, 0, 0⟩ = "Thu, 01 Jan 2026 10:01:01 GMT" ∧
    parseRFC1123 "Thu, 01 Jan 2026 10:01:01 GMT" = some ⟨2026, 1, 1, 10, 1, 1, 0⟩ ∧
    dtTimestamp (toState ⟨2026, 1, 1, 10, 1, 1, 0⟩) <
      dtTimestamp (toState ⟨2026, 2, 7, 12, 57, 36, 0⟩) := by
  refine ⟨?_, by decide, by decide, by decide, by decide, by decide⟩
  intro base d
  unfold generate_random_datetime
  dsimp only
  split_ifs with h
  · exact h
  · obtain ⟨h1, h2, h3, h4, h5⟩ := walkBack_spec (strLen base.month) (strLen base.day) 360
      ⟨(toState base).ordinal - (randint 1 20 d.rDayDelta : Nat),
        random_hour base.hour d.rHour2,
        random_minute_or_second base.minute d.rMin2,
        random_minute_or_second base.second d.rSec2,
        (toState ⟨base.year, random_month base.month d.rMonth, random_day base.day d.rDay,
          random_hour base.hour d.rHour, random_minute_or_second base.minute d.rMin,
          random_minute_or_second base.second d.rSec,
          randint 0 999999 d.rMicro⟩).microsecond⟩
    have hh := random_hour_le base.hour d.rHour2
    have hm := rms_le base.minute d.rMin2
    have hs := rms_le base.second d.rSec2
    have hu : randint 0 999999 d.rMicro ≤ 999999 := randint_le 0 999999 _ (by omega)
    have hk : 1 ≤ randint 1 20 d.rDayDelta := randint_ge 1 20 _
    unfold dtTimestamp
    dsimp only [toState] at h1 h2 h3 h4 h5 ⊢
    rw [h2, h3, h4, h5]
    omega

end RewordApp
